import Mathlib

set_option maxRecDepth 4000

/-!
Verification of an automated arbitrage engine for 15-minute binary
prediction markets.  The development shallowly embeds the core components
(the opportunity evaluator over order books, the streaming book cache, the
market catalog's token-id handling, the order-status fill predicate and the
two-phase execution state machine) and proves the specified properties
about them.  Exchange prices and sizes are modelled as exact rationals.
-/

/- ===================== Opportunity evaluator (order books) ============== -/

/-- Single price level in an orderbook (price and size in shares). -/
structure OrderbookLevel where
  price : ℚ
  size : ℚ
deriving DecidableEq, Repr

/-- One side (bid or ask) of an orderbook. -/
structure SideBook where
  levels : List OrderbookLevel
deriving DecidableEq, Repr

/-- Best (top) price: lowest ask or highest bid; 0 when the side is empty. -/
def SideBook.best_price (b : SideBook) : ℚ :=
  ((b.levels.head?).map OrderbookLevel.price).getD 0

/-- Size available at the best price; 0 when the side is empty. -/
def SideBook.best_size (b : SideBook) : ℚ :=
  ((b.levels.head?).map OrderbookLevel.size).getD 0

/-- Loop of `cost_to_fill`: walk the levels taking from each until the
target is covered; `none` models the `inf` returned on exhausted depth. -/
def cost_to_fill_go : List OrderbookLevel → ℚ → ℚ → Option ℚ
  | [], remaining, total => if remaining > 0 then none else some total
  | lvl :: rest, remaining, total =>
    let take := min remaining lvl.size
    let total2 := total + take * lvl.price
    let remaining2 := remaining - take
    if remaining2 ≤ 0 then some total2 else cost_to_fill_go rest remaining2 total2

/-- Cost to fill `target_shares` walking the book: returns
`(total_cost, avg_price)`, or `none` for the `(inf, inf)` case. -/
def SideBook.cost_to_fill (b : SideBook) (target_shares : ℚ) : Option (ℚ × ℚ) :=
  if target_shares ≤ 0 then some (0, 0)
  else (cost_to_fill_go b.levels target_shares 0).map
    (fun total => (total, total / target_shares))

/-- Full orderbook for one outcome. -/
structure MarketOrderbook where
  token_id : String
  bids : SideBook
  asks : SideBook
  timestamp : ℚ
deriving DecidableEq, Repr

/-- Bid-ask spread; `none` models the `inf` returned when a side is empty. -/
def MarketOrderbook.spread (m : MarketOrderbook) : Option ℚ :=
  if m.bids.levels = [] ∨ m.asks.levels = [] then none
  else some (m.asks.best_price - m.bids.best_price)

/-- Comparison `spread > x` under the convention that `none` is `inf`. -/
def spread_gt (s : Option ℚ) (x : ℚ) : Bool :=
  match s with
  | none => true
  | some v => decide (v > x)

/-- Orderbooks for both sides of a bracket. -/
structure BracketOrderbooks where
  up_book : MarketOrderbook
  down_book : MarketOrderbook
deriving DecidableEq, Repr

def BracketOrderbooks.up_ask (b : BracketOrderbooks) : ℚ :=
  b.up_book.asks.best_price

def BracketOrderbooks.down_ask (b : BracketOrderbooks) : ℚ :=
  b.down_book.asks.best_price

/-- Sum of best asks. -/
def BracketOrderbooks.sum_asks (b : BracketOrderbooks) : ℚ :=
  b.up_ask + b.down_ask

/-- Edge in cents when buying both sides at best ask. -/
def BracketOrderbooks.edge_cents (b : BracketOrderbooks) : ℚ :=
  (1 - b.sum_asks) * 100

/-- Result of the fillability check, one constructor per reject reason. -/
inductive FillCheck
  | edgeTooSmall
  | upSpreadTooWide
  | downSpreadTooWide
  | upDepthTooSmall
  | downDepthTooSmall
  | upNotFillable
  | downNotFillable
  | fillEdgeTooSmall
  | fillable
deriving DecidableEq, Repr

/-- The fillable-arbitrage check: best-ask edge first, then spreads, then
top-of-ask depth, then the depth-walked cost and slippage-adjusted edge. -/
def BracketOrderbooks.is_fillable_arb (b : BracketOrderbooks)
    (target_shares min_edge_cents max_spread min_depth_usdc : ℚ) : FillCheck :=
  if b.edge_cents < min_edge_cents then .edgeTooSmall
  else if spread_gt b.up_book.spread max_spread then .upSpreadTooWide
  else if spread_gt b.down_book.spread max_spread then .downSpreadTooWide
  else if b.up_book.asks.best_size * b.up_ask < min_depth_usdc then .upDepthTooSmall
  else if b.down_book.asks.best_size * b.down_ask < min_depth_usdc then .downDepthTooSmall
  else
    match b.up_book.asks.cost_to_fill target_shares,
          b.down_book.asks.cost_to_fill target_shares with
    | none, _ => .upNotFillable
    | some _, none => .downNotFillable
    | some uc, some dc =>
      if (target_shares - (uc.1 + dc.1)) * 100 < min_edge_cents
      then .fillEdgeTooSmall else .fillable

/-- State of the binary search in `get_optimal_size`. -/
structure OptState where
  low : ℚ
  high : ℚ
  best_shares : ℚ
  best_edge : ℚ
deriving DecidableEq, Repr

/-- One binary-search iteration of `get_optimal_size`. -/
def opt_step (b : BracketOrderbooks) (max_usdc min_edge_cents : ℚ)
    (s : OptState) : OptState :=
  let mid := (s.low + s.high) / 2
  match b.up_book.asks.cost_to_fill mid, b.down_book.asks.cost_to_fill mid with
  | some uc, some dc =>
    let total_cost := uc.1 + dc.1
    if total_cost > max_usdc then { s with high := mid }
    else
      let edge := (mid - total_cost) * 100
      if edge ≥ min_edge_cents then
        { low := mid, high := s.high, best_shares := mid, best_edge := edge }
      else { s with high := mid }
  | _, _ => { s with high := mid }

/-- Binary search (20 iterations) for the largest share size that stays
within the notional cap and keeps the slippage-adjusted edge. -/
def BracketOrderbooks.get_optimal_size (b : BracketOrderbooks)
    (max_usdc min_edge_cents : ℚ) : ℚ × ℚ :=
  let s := (opt_step b max_usdc min_edge_cents)^[20]
    { low := 0, high := max_usdc / (3/10), best_shares := 0, best_edge := 0 }
  (s.best_shares, s.best_edge)

/- ===================== Claim C6 ===================== -/

lemma edge_cents_lt_iff (b : BracketOrderbooks) (me : ℚ) :
    b.edge_cents < me ↔ b.sum_asks > 1 - me / 100 := by
  unfold BracketOrderbooks.edge_cents
  constructor <;> intro h <;> linarith

lemma is_fillable_arb_ne_edge (b : BracketOrderbooks) (t me ms md : ℚ)
    (hc : ¬ b.edge_cents < me) :
    b.is_fillable_arb t me ms md ≠ .edgeTooSmall := by
  unfold BracketOrderbooks.is_fillable_arb
  rw [if_neg hc]
  repeat' split
  all_goals simp

/-- Boundary books used to refute C6: the best asks sum to exactly
`1 − min_edge_cents/100` with `min_edge_cents = 1`. -/
def cex6 : BracketOrderbooks :=
  { up_book :=
      { token_id := "up"
        bids := { levels := [{ price := 49/100, size := 200 }] }
        asks := { levels := [{ price := 1/2, size := 200 }] }
        timestamp := 0 }
    down_book :=
      { token_id := "down"
        bids := { levels := [{ price := 12/25, size := 200 }] }
        asks := { levels := [{ price := 49/100, size := 200 }] }
        timestamp := 0 } }

/-- C6 counterexample: at the boundary `best_ask_up + best_ask_down =
1 − min_edge_cents/100` the first step does **not** reject (the code
rejects only on strict `edge_cents < min_edge_cents`), contradicting the
claimed `≥` rejection. -/
theorem C6_counterexample :
    cex6.sum_asks ≥ 1 - 1/100 ∧
    cex6.is_fillable_arb 10 1 (3/100) 50 ≠ FillCheck.edgeTooSmall := by
  constructor
  · with_unfolding_all decide
  · with_unfolding_all decide

/-- C6 (amended): the fillability check rejects at the first step exactly
when `best_ask_up + best_ask_down` strictly exceeds
`1 − min_edge_cents/100`, i.e. when the best-ask edge is strictly below
`min_edge_cents`; the boundary case of exact equality is not rejected at
this step. -/
theorem C6_fillable_first_step (b : BracketOrderbooks) (t me ms md : ℚ) :
    b.is_fillable_arb t me ms md = FillCheck.edgeTooSmall ↔
      b.sum_asks > 1 - me / 100 := by
  rw [← edge_cents_lt_iff]
  by_cases hc : b.edge_cents < me
  · simp only [hc, iff_true]
    unfold BracketOrderbooks.is_fillable_arb
    rw [if_pos hc]
  · simp only [hc, iff_false]
    exact is_fillable_arb_ne_edge b t me ms md hc

/- ===================== Claims C7 and C10 ===================== -/

/-- Soundness part of the binary-search invariant: the recorded best size
and edge were validated by a full depth walk on both sides. -/
def opt_invA (b : BracketOrderbooks) (mu me : ℚ) (s : OptState) : Prop :=
  s.best_shares = 0 ∨
    ∃ uc dc : ℚ × ℚ,
      b.up_book.asks.cost_to_fill s.best_shares = some uc ∧
      b.down_book.asks.cost_to_fill s.best_shares = some dc ∧
      uc.1 + dc.1 ≤ mu ∧
      s.best_edge = (s.best_shares - (uc.1 + dc.1)) * 100 ∧
      me ≤ s.best_edge

/-- Range part of the binary-search invariant. -/
def opt_invB (mu : ℚ) (s : OptState) : Prop :=
  0 ≤ s.low ∧ s.low ≤ s.high ∧ s.high ≤ mu / (3/10) ∧ s.best_shares ≤ mu / (3/10)

lemma opt_step_invA (b : BracketOrderbooks) (mu me : ℚ) (s : OptState)
    (hs : opt_invA b mu me s) : opt_invA b mu me (opt_step b mu me s) := by
  unfold opt_step
  dsimp only
  split
  · rename_i uc dc hup hdown
    split
    · exact hs
    · rename_i hle
      split
      · rename_i hedge
        right
        exact ⟨uc, dc, hup, hdown, by linarith [not_lt.mp hle], rfl, hedge⟩
      · exact hs
  · exact hs

lemma opt_step_invB (b : BracketOrderbooks) (mu me : ℚ) (s : OptState)
    (hs : opt_invB mu s) : opt_invB mu (opt_step b mu me s) := by
  obtain ⟨h0, hlh, hhm, hbm⟩ := hs
  have hmid1 : s.low ≤ (s.low + s.high) / 2 := by linarith
  have hmid2 : (s.low + s.high) / 2 ≤ s.high := by linarith
  unfold opt_step
  dsimp only
  split
  · split
    · exact ⟨h0, by simpa using hmid1, by simp; linarith, by simpa using hbm⟩
    · split
      · exact ⟨by simp; linarith, by simpa using hmid2, by simpa using hhm,
          by simp; linarith⟩
      · exact ⟨h0, by simpa using hmid1, by simp; linarith, by simpa using hbm⟩
  · exact ⟨h0, by simpa using hmid1, by simp; linarith, by simpa using hbm⟩

lemma opt_iter_invA (b : BracketOrderbooks) (mu me : ℚ) (s : OptState)
    (hs : opt_invA b mu me s) (n : ℕ) :
    opt_invA b mu me ((opt_step b mu me)^[n] s) := by
  induction n with
  | zero => simpa using hs
  | succ k ih =>
    rw [Function.iterate_succ_apply']
    exact opt_step_invA b mu me _ ih

lemma opt_iter_invB (b : BracketOrderbooks) (mu me : ℚ) (s : OptState)
    (hs : opt_invB mu s) (n : ℕ) :
    opt_invB mu ((opt_step b mu me)^[n] s) := by
  induction n with
  | zero => simpa using hs
  | succ k ih =>
    rw [Function.iterate_succ_apply']
    exact opt_step_invB b mu me _ ih

/-- C7: whenever the size selection returns a positive `target_shares`,
re-walking each ask ladder at exactly that size yields finite costs, the
returned edge is `(target_shares − (up_cost + down_cost)) × 100` in the
very arithmetic the evaluator used, and that edge is at least
`min_edge_cents`. -/
theorem C7_optimal_size_sound (b : BracketOrderbooks) (mu me N e : ℚ)
    (hres : b.get_optimal_size mu me = (N, e)) (hN : 0 < N) :
    ∃ uc dc : ℚ × ℚ,
      b.up_book.asks.cost_to_fill N = some uc ∧
      b.down_book.asks.cost_to_fill N = some dc ∧
      e = (N - (uc.1 + dc.1)) * 100 ∧
      me ≤ (N - (uc.1 + dc.1)) * 100 := by
  have hinv := opt_iter_invA b mu me
    { low := 0, high := mu / (3/10), best_shares := 0, best_edge := 0 }
    (Or.inl rfl) 20
  unfold BracketOrderbooks.get_optimal_size at hres
  set s := (opt_step b mu me)^[20]
    { low := 0, high := mu / (3/10), best_shares := 0, best_edge := 0 } with hsdef
  have h1 : s.best_shares = N := congrArg Prod.fst hres
  have h2 : s.best_edge = e := congrArg Prod.snd hres
  rcases hinv with h0 | ⟨uc, dc, hup, hdown, _, hedge, hme⟩
  · rw [h1] at h0; exact absurd h0 (by linarith)
  · rw [h1] at hup hdown
    rw [h1] at hedge
    rw [h2] at hedge hme
    exact ⟨uc, dc, hup, hdown, hedge, hedge ▸ hme⟩

/-- C10: with a non-negative position cap, a positive returned size never
implies spending more than the cap: the walked fill cost at the returned
size is at most `max_usdc`, and the size itself is at most
`max_usdc / 0.3`. -/
theorem C10_optimal_size_capped (b : BracketOrderbooks) (mu me N e : ℚ)
    (hmu : 0 ≤ mu) (hres : b.get_optimal_size mu me = (N, e)) (hN : 0 < N) :
    (∃ uc dc : ℚ × ℚ,
      b.up_book.asks.cost_to_fill N = some uc ∧
      b.down_book.asks.cost_to_fill N = some dc ∧
      uc.1 + dc.1 ≤ mu) ∧ N ≤ mu / (3/10) := by
  have hinvA := opt_iter_invA b mu me
    { low := 0, high := mu / (3/10), best_shares := 0, best_edge := 0 }
    (Or.inl rfl) 20
  have hinvB := opt_iter_invB b mu me
    { low := 0, high := mu / (3/10), best_shares := 0, best_edge := 0 }
    ⟨le_refl 0, by positivity, le_refl _, by positivity⟩ 20
  unfold BracketOrderbooks.get_optimal_size at hres
  set s := (opt_step b mu me)^[20]
    { low := 0, high := mu / (3/10), best_shares := 0, best_edge := 0 } with hsdef
  have h1 : s.best_shares = N := congrArg Prod.fst hres
  rcases hinvA with h0 | ⟨uc, dc, hup, hdown, hcap, _, _⟩
  · rw [h1] at h0; exact absurd h0 (by linarith)
  · rw [h1] at hup hdown
    exact ⟨⟨uc, dc, hup, hdown, hcap⟩, h1 ▸ hinvB.2.2.2⟩

/-- Concrete books used as witness input for C7 and C10. -/
def bw : BracketOrderbooks :=
  { up_book :=
      { token_id := "u"
        bids := { levels := [] }
        asks := { levels := [{ price := 1/4, size := 1000 }] }
        timestamp := 0 }
    down_book :=
      { token_id := "d"
        bids := { levels := [] }
        asks := { levels := [{ price := 1/4, size := 1000 }] }
        timestamp := 0 } }

lemma iter_chain {a : Type _} (f : a → a) (n : ℕ) (x y : a) (h : f x = y) :
    f^[n + 1] x = f^[n] y := by
  rw [Function.iterate_succ_apply, h]

lemma bw_step_0 : opt_step bw (3/10) 1 { low := 0, high := (3/10 : ℚ)/(3/10), best_shares := 0, best_edge := 0 } = { low := 1/2, high := 1, best_shares := 1/2, best_edge := 25 } := by
  unfold opt_step bw SideBook.cost_to_fill cost_to_fill_go
  norm_num [min_def]

lemma bw_step_1 : opt_step bw (3/10) 1 { low := 1/2, high := 1, best_shares := 1/2, best_edge := 25 } = { low := 1/2, high := 3/4, best_shares := 1/2, best_edge := 25 } := by
  unfold opt_step bw SideBook.cost_to_fill cost_to_fill_go
  norm_num [min_def]

lemma bw_step_2 : opt_step bw (3/10) 1 { low := 1/2, high := 3/4, best_shares := 1/2, best_edge := 25 } = { low := 1/2, high := 5/8, best_shares := 1/2, best_edge := 25 } := by
  unfold opt_step bw SideBook.cost_to_fill cost_to_fill_go
  norm_num [min_def]

lemma bw_step_3 : opt_step bw (3/10) 1 { low := 1/2, high := 5/8, best_shares := 1/2, best_edge := 25 } = { low := 9/16, high := 5/8, best_shares := 9/16, best_edge := 225/8 } := by
  unfold opt_step bw SideBook.cost_to_fill cost_to_fill_go
  norm_num [min_def]

lemma bw_step_4 : opt_step bw (3/10) 1 { low := 9/16, high := 5/8, best_shares := 9/16, best_edge := 225/8 } = { low := 19/32, high := 5/8, best_shares := 19/32, best_edge := 475/16 } := by
  unfold opt_step bw SideBook.cost_to_fill cost_to_fill_go
  norm_num [min_def]

lemma bw_step_5 : opt_step bw (3/10) 1 { low := 19/32, high := 5/8, best_shares := 19/32, best_edge := 475/16 } = { low := 19/32, high := 39/64, best_shares := 19/32, best_edge := 475/16 } := by
  unfold opt_step bw SideBook.cost_to_fill cost_to_fill_go
  norm_num [min_def]

lemma bw_step_6 : opt_step bw (3/10) 1 { low := 19/32, high := 39/64, best_shares := 19/32, best_edge := 475/16 } = { low := 19/32, high := 77/128, best_shares := 19/32, best_edge := 475/16 } := by
  unfold opt_step bw SideBook.cost_to_fill cost_to_fill_go
  norm_num [min_def]

lemma bw_step_7 : opt_step bw (3/10) 1 { low := 19/32, high := 77/128, best_shares := 19/32, best_edge := 475/16 } = { low := 153/256, high := 77/128, best_shares := 153/256, best_edge := 3825/128 } := by
  unfold opt_step bw SideBook.cost_to_fill cost_to_fill_go
  norm_num [min_def]

lemma bw_step_8 : opt_step bw (3/10) 1 { low := 153/256, high := 77/128, best_shares := 153/256, best_edge := 3825/128 } = { low := 307/512, high := 77/128, best_shares := 307/512, best_edge := 7675/256 } := by
  unfold opt_step bw SideBook.cost_to_fill cost_to_fill_go
  norm_num [min_def]

lemma bw_step_9 : opt_step bw (3/10) 1 { low := 307/512, high := 77/128, best_shares := 307/512, best_edge := 7675/256 } = { low := 307/512, high := 615/1024, best_shares := 307/512, best_edge := 7675/256 } := by
  unfold opt_step bw SideBook.cost_to_fill cost_to_fill_go
  norm_num [min_def]

lemma bw_step_10 : opt_step bw (3/10) 1 { low := 307/512, high := 615/1024, best_shares := 307/512, best_edge := 7675/256 } = { low := 307/512, high := 1229/2048, best_shares := 307/512, best_edge := 7675/256 } := by
  unfold opt_step bw SideBook.cost_to_fill cost_to_fill_go
  norm_num [min_def]

lemma bw_step_11 : opt_step bw (3/10) 1 { low := 307/512, high := 1229/2048, best_shares := 307/512, best_edge := 7675/256 } = { low := 2457/4096, high := 1229/2048, best_shares := 2457/4096, best_edge := 61425/2048 } := by
  unfold opt_step bw SideBook.cost_to_fill cost_to_fill_go
  norm_num [min_def]

lemma bw_step_12 : opt_step bw (3/10) 1 { low := 2457/4096, high := 1229/2048, best_shares := 2457/4096, best_edge := 61425/2048 } = { low := 4915/8192, high := 1229/2048, best_shares := 4915/8192, best_edge := 122875/4096 } := by
  unfold opt_step bw SideBook.cost_to_fill cost_to_fill_go
  norm_num [min_def]

lemma bw_step_13 : opt_step bw (3/10) 1 { low := 4915/8192, high := 1229/2048, best_shares := 4915/8192, best_edge := 122875/4096 } = { low := 4915/8192, high := 9831/16384, best_shares := 4915/8192, best_edge := 122875/4096 } := by
  unfold opt_step bw SideBook.cost_to_fill cost_to_fill_go
  norm_num [min_def]

lemma bw_step_14 : opt_step bw (3/10) 1 { low := 4915/8192, high := 9831/16384, best_shares := 4915/8192, best_edge := 122875/4096 } = { low := 4915/8192, high := 19661/32768, best_shares := 4915/8192, best_edge := 122875/4096 } := by
  unfold opt_step bw SideBook.cost_to_fill cost_to_fill_go
  norm_num [min_def]

lemma bw_step_15 : opt_step bw (3/10) 1 { low := 4915/8192, high := 19661/32768, best_shares := 4915/8192, best_edge := 122875/4096 } = { low := 39321/65536, high := 19661/32768, best_shares := 39321/65536, best_edge := 983025/32768 } := by
  unfold opt_step bw SideBook.cost_to_fill cost_to_fill_go
  norm_num [min_def]

lemma bw_step_16 : opt_step bw (3/10) 1 { low := 39321/65536, high := 19661/32768, best_shares := 39321/65536, best_edge := 983025/32768 } = { low := 78643/131072, high := 19661/32768, best_shares := 78643/131072, best_edge := 1966075/65536 } := by
  unfold opt_step bw SideBook.cost_to_fill cost_to_fill_go
  norm_num [min_def]

lemma bw_step_17 : opt_step bw (3/10) 1 { low := 78643/131072, high := 19661/32768, best_shares := 78643/131072, best_edge := 1966075/65536 } = { low := 78643/131072, high := 157287/262144, best_shares := 78643/131072, best_edge := 1966075/65536 } := by
  unfold opt_step bw SideBook.cost_to_fill cost_to_fill_go
  norm_num [min_def]

lemma bw_step_18 : opt_step bw (3/10) 1 { low := 78643/131072, high := 157287/262144, best_shares := 78643/131072, best_edge := 1966075/65536 } = { low := 78643/131072, high := 314573/524288, best_shares := 78643/131072, best_edge := 1966075/65536 } := by
  unfold opt_step bw SideBook.cost_to_fill cost_to_fill_go
  norm_num [min_def]

lemma bw_step_19 : opt_step bw (3/10) 1 { low := 78643/131072, high := 314573/524288, best_shares := 78643/131072, best_edge := 1966075/65536 } = { low := 629145/1048576, high := 314573/524288, best_shares := 629145/1048576, best_edge := 15728625/524288 } := by
  unfold opt_step bw SideBook.cost_to_fill cost_to_fill_go
  norm_num [min_def]

lemma bw_iter_eval :
    (opt_step bw (3/10) 1)^[20] { low := 0, high := (3/10 : ℚ)/(3/10), best_shares := 0, best_edge := 0 } =
      { low := 629145/1048576, high := 314573/524288, best_shares := 629145/1048576, best_edge := 15728625/524288 } := by
  rw [show (20:ℕ) = 19+1 from rfl, iter_chain _ _ _ _ bw_step_0]
  rw [show (19:ℕ) = 18+1 from rfl, iter_chain _ _ _ _ bw_step_1]
  rw [show (18:ℕ) = 17+1 from rfl, iter_chain _ _ _ _ bw_step_2]
  rw [show (17:ℕ) = 16+1 from rfl, iter_chain _ _ _ _ bw_step_3]
  rw [show (16:ℕ) = 15+1 from rfl, iter_chain _ _ _ _ bw_step_4]
  rw [show (15:ℕ) = 14+1 from rfl, iter_chain _ _ _ _ bw_step_5]
  rw [show (14:ℕ) = 13+1 from rfl, iter_chain _ _ _ _ bw_step_6]
  rw [show (13:ℕ) = 12+1 from rfl, iter_chain _ _ _ _ bw_step_7]
  rw [show (12:ℕ) = 11+1 from rfl, iter_chain _ _ _ _ bw_step_8]
  rw [show (11:ℕ) = 10+1 from rfl, iter_chain _ _ _ _ bw_step_9]
  rw [show (10:ℕ) = 9+1 from rfl, iter_chain _ _ _ _ bw_step_10]
  rw [show (9:ℕ) = 8+1 from rfl, iter_chain _ _ _ _ bw_step_11]
  rw [show (8:ℕ) = 7+1 from rfl, iter_chain _ _ _ _ bw_step_12]
  rw [show (7:ℕ) = 6+1 from rfl, iter_chain _ _ _ _ bw_step_13]
  rw [show (6:ℕ) = 5+1 from rfl, iter_chain _ _ _ _ bw_step_14]
  rw [show (5:ℕ) = 4+1 from rfl, iter_chain _ _ _ _ bw_step_15]
  rw [show (4:ℕ) = 3+1 from rfl, iter_chain _ _ _ _ bw_step_16]
  rw [show (3:ℕ) = 2+1 from rfl, iter_chain _ _ _ _ bw_step_17]
  rw [show (2:ℕ) = 1+1 from rfl, iter_chain _ _ _ _ bw_step_18]
  rw [show (1:ℕ) = 0+1 from rfl, iter_chain _ _ _ _ bw_step_19]
  rw [Function.iterate_zero_apply]

lemma bw_opt : bw.get_optimal_size (3/10) 1 = (629145/1048576, 15728625/524288) := by
  unfold BracketOrderbooks.get_optimal_size
  rw [bw_iter_eval]

theorem C7_witness :
    ∃ uc dc : ℚ × ℚ,
      bw.up_book.asks.cost_to_fill (629145/1048576) = some uc ∧
      bw.down_book.asks.cost_to_fill (629145/1048576) = some dc ∧
      (15728625/524288 : ℚ) = ((629145/1048576 : ℚ) - (uc.1 + dc.1)) * 100 ∧
      (1 : ℚ) ≤ ((629145/1048576 : ℚ) - (uc.1 + dc.1)) * 100 :=
  C7_optimal_size_sound bw (3/10) 1 (629145/1048576) (15728625/524288)
    bw_opt (by norm_num)

theorem C10_witness :
    (∃ uc dc : ℚ × ℚ,
      bw.up_book.asks.cost_to_fill (629145/1048576) = some uc ∧
      bw.down_book.asks.cost_to_fill (629145/1048576) = some dc ∧
      uc.1 + dc.1 ≤ (3/10 : ℚ)) ∧
    (629145/1048576 : ℚ) ≤ (3/10 : ℚ) / (3/10) :=
  C10_optimal_size_capped bw (3/10) 1 (629145/1048576) (15728625/524288)
    (by norm_num) bw_opt (by norm_num)

/- ===================== Streaming book cache (WebSocket) ================= -/

/-- Association-map lookup (Python `dict.get`); keys are unique. -/
def assocGet {α β : Type _} [DecidableEq α] : List (α × β) → α → Option β
  | [], _ => none
  | kv :: rest, k => if kv.1 = k then some kv.2 else assocGet rest k

/-- Association-map write (Python `dict[k] = v`): replace the entry holding
the key, else append. -/
def assocSet {α β : Type _} [DecidableEq α] : List (α × β) → α → β → List (α × β)
  | [], k, v => [(k, v)]
  | kv :: rest, k, v => if kv.1 = k then (k, v) :: rest else kv :: assocSet rest k v

/-- Association-map removal (Python `dict.pop(k, None)`). -/
def assocPop {α β : Type _} [DecidableEq α] : List (α × β) → α → List (α × β)
  | [], _ => []
  | kv :: rest, k => if kv.1 = k then rest else kv :: assocPop rest k

lemma assocGet_assocSet_self {α β : Type _} [DecidableEq α]
    (m : List (α × β)) (k : α) (v : β) : assocGet (assocSet m k v) k = some v := by
  induction m with
  | nil => simp [assocSet, assocGet]
  | cons kv rest ih =>
    by_cases h : kv.1 = k
    · simp [assocSet, assocGet, h]
    · simp [assocSet, assocGet, h, ih]

lemma assocGet_assocSet_other {α β : Type _} [DecidableEq α]
    (m : List (α × β)) (k k' : α) (v : β) (h : k' ≠ k) :
    assocGet (assocSet m k v) k' = assocGet m k' := by
  induction m with
  | nil => simp [assocSet, assocGet, Ne.symm h]
  | cons kv rest ih =>
    by_cases hk : kv.1 = k
    · have hne : kv.1 ≠ k' := by rw [hk]; exact Ne.symm h
      simp only [assocSet, if_pos hk, assocGet, if_neg (Ne.symm h), if_neg hne]
    · by_cases hk' : kv.1 = k'
      · simp only [assocSet, if_neg hk, assocGet, if_pos hk']
      · simp only [assocSet, if_neg hk, assocGet, if_neg hk']
        exact ih

lemma assocGet_assocPop_self {α β : Type _} [DecidableEq α]
    (m : List (α × β)) (k : α) (hnd : (m.map Prod.fst).Nodup) :
    assocGet (assocPop m k) k = none := by
  induction m with
  | nil => simp [assocPop, assocGet]
  | cons kv rest ih =>
    simp only [List.map_cons, List.nodup_cons] at hnd
    by_cases h : kv.1 = k
    · subst h
      cases hget : assocGet rest kv.1 with
      | none => simpa [assocPop] using hget
      | some v =>
        exfalso
        apply hnd.1
        clear ih hnd
        induction rest with
        | nil => simp [assocGet] at hget
        | cons kv2 rest2 ih2 =>
          by_cases h2 : kv2.1 = kv.1
          · simp [h2]
          · simp only [assocGet, h2, if_false] at hget
            simpa using Or.inr (ih2 hget)
    · simp [assocPop, assocGet, h, ih hnd.2]

lemma assocGet_assocPop_other {α β : Type _} [DecidableEq α]
    (m : List (α × β)) (k k' : α) (h : k' ≠ k) :
    assocGet (assocPop m k) k' = assocGet m k' := by
  induction m with
  | nil => simp [assocPop]
  | cons kv rest ih =>
    by_cases hk : kv.1 = k
    · have hne : kv.1 ≠ k' := by rw [hk]; exact Ne.symm h
      simp only [assocPop, if_pos hk, assocGet, if_neg hne]
    · by_cases hk' : kv.1 = k'
      · simp only [assocPop, if_neg hk, assocGet, if_pos hk']
      · simp only [assocPop, if_neg hk, assocGet, if_neg hk']
        exact ih

/-- Per-token book state held by the WebSocket cache. -/
structure TokenBookState where
  token_id : String
  bids_by_price : List (ℚ × ℚ)
  asks_by_price : List (ℚ × ℚ)
  last_ts : ℚ
deriving DecidableEq, Repr

/-- Insertion step for the sorted export. -/
def insertSortedBy (le : ℚ × ℚ → ℚ × ℚ → Bool) (x : ℚ × ℚ) :
    List (ℚ × ℚ) → List (ℚ × ℚ)
  | [] => [x]
  | y :: ys => if le x y then x :: y :: ys else y :: insertSortedBy le x ys

/-- Insertion sort used to export price→size maps in price order. -/
def sortPairsBy (le : ℚ × ℚ → ℚ × ℚ → Bool) (l : List (ℚ × ℚ)) :
    List (ℚ × ℚ) :=
  l.foldr (insertSortedBy le) []

/-- Export the cached state as an orderbook: bids sorted descending, asks
ascending, levels with non-positive price or size dropped. -/
def TokenBookState.to_orderbook (st : TokenBookState) : MarketOrderbook :=
  let bids := (sortPairsBy (fun a b => decide (a.1 ≥ b.1)) st.bids_by_price).filter
    (fun kv => decide (kv.1 > 0) && decide (kv.2 > 0))
  let asks := (sortPairsBy (fun a b => decide (a.1 ≤ b.1)) st.asks_by_price).filter
    (fun kv => decide (kv.1 > 0) && decide (kv.2 > 0))
  { token_id := st.token_id
    bids := { levels := bids.map (fun kv => { price := kv.1, size := kv.2 }) }
    asks := { levels := asks.map (fun kv => { price := kv.1, size := kv.2 }) }
    timestamp := st.last_ts }

/-- The in-memory cache: token → book state, plus the dirty token set. -/
structure WSBookCache where
  books : List (String × TokenBookState)
  dirty_token_ids : List String
deriving DecidableEq, Repr

def emptyWSBookCache : WSBookCache := { books := [], dirty_token_ids := [] }

/-- Set insertion for the dirty token set. -/
def dirtyAdd (d : List String) (t : String) : List String :=
  if t ∈ d then d else d ++ [t]

/-- One level of a `book` message. -/
structure BookLevelMsg where
  price : ℚ
  size : ℚ
deriving DecidableEq, Repr

/-- One entry of a `price_change` message. -/
structure PriceChangeMsg where
  asset_id : String
  price : ℚ
  size : ℚ
  side : String
deriving DecidableEq, Repr

/-- A parsed market-channel message. -/
inductive MarketEvent
  | book (asset_id : String) (bids : List BookLevelMsg)
      (asks : List BookLevelMsg) (timestamp : ℚ)
  | price_change (changes : List PriceChangeMsg) (timestamp : ℚ)
deriving DecidableEq, Repr

/-- Build a price→size map from `book` levels, dropping non-positive
prices and sizes. -/
def buildSideMap (levels : List BookLevelMsg) : List (ℚ × ℚ) :=
  levels.foldl
    (fun m lvl => if lvl.price > 0 ∧ lvl.size > 0 then assocSet m lvl.price lvl.size else m)
    []

/-- The state an entry update starts from: the cached one, or a fresh
empty book for a token not seen before. -/
def entry_start_state (books : List (String × TokenBookState)) (ts : ℚ)
    (aid : String) : TokenBookState :=
  (assocGet books aid).getD
    { token_id := aid, bids_by_price := [], asks_by_price := [], last_ts := ts }

/-- Apply one `price_change` entry: upsert `(side, price)`; a non-positive
size removes the level; the token is always marked dirty. -/
def apply_price_change_entry (ts : ℚ)
    (bd : List (String × TokenBookState) × List String) (ch : PriceChangeMsg) :
    List (String × TokenBookState) × List String :=
  if ch.asset_id = "" then bd
  else
    let st0 := entry_start_state bd.1 ts ch.asset_id
    let st1 :=
      if ch.side.toUpper = "BUY" then
        if ch.size ≤ 0 then { st0 with bids_by_price := assocPop st0.bids_by_price ch.price }
        else { st0 with bids_by_price := assocSet st0.bids_by_price ch.price ch.size }
      else if ch.side.toUpper = "SELL" then
        if ch.size ≤ 0 then { st0 with asks_by_price := assocPop st0.asks_by_price ch.price }
        else { st0 with asks_by_price := assocSet st0.asks_by_price ch.price ch.size }
      else st0
    let st2 := { st1 with last_ts := ts }
    (assocSet bd.1 ch.asset_id st2, dirtyAdd bd.2 ch.asset_id)

/-- Apply one market-channel event to the cache. -/
def apply_market_event (c : WSBookCache) (e : MarketEvent) : WSBookCache :=
  match e with
  | .book aid bids asks ts =>
    if aid = "" then c
    else
      let st : TokenBookState :=
        { token_id := aid
          bids_by_price := buildSideMap bids
          asks_by_price := buildSideMap asks
          last_ts := ts }
      { books := assocSet c.books aid st
        dirty_token_ids := dirtyAdd c.dirty_token_ids aid }
  | .price_change changes ts =>
    let bd := changes.foldl (apply_price_change_entry ts) (c.books, c.dirty_token_ids)
    { books := bd.1, dirty_token_ids := bd.2 }

/-- Drain: return the dirty set and clear it. -/
def drain_dirty (c : WSBookCache) : List String × WSBookCache :=
  (c.dirty_token_ids, { c with dirty_token_ids := [] })

/- ===================== Claim C8 ===================== -/

/-- The literal event sequence of the streaming-delta-merge scenario. -/
def c8_events : List MarketEvent :=
  [ .book "T" [{ price := 2/5, size := 10 }] [{ price := 3/5, size := 10 }] 0
  , .price_change [{ asset_id := "T", price := 41/100, size := 5, side := "BUY" }] 1
  , .price_change [{ asset_id := "T", price := 2/5, size := 0, side := "BUY" }] 2
  , .price_change [{ asset_id := "T", price := 3/5, size := 0, side := "SELL" }] 3
  , .price_change [{ asset_id := "T", price := 11/20, size := 8, side := "SELL" }] 4 ]

def c8_final : WSBookCache := c8_events.foldl apply_market_event emptyWSBookCache

/-- C8: (i) the literal scenario: after the book snapshot and the four
price-change events the exported book for T is bids `[(0.41,5)]` and asks
`[(0.55,8)]`, and T appears exactly once in the drained dirty set;
(ii) in general a single price-change entry upserts `(side, price)` — a
positive size overwrites the level, size 0 removes it, every other price
level on that side and the whole opposite side are untouched — and the
token is marked dirty; (iii) the dirty set never holds duplicates, so any
token occurs at most once (exactly once when just marked) per drain. -/
theorem C8_price_change_merge :
    ((assocGet c8_final.books "T").map
        (fun st => st.to_orderbook.bids.levels) =
          some [{ price := 41/100, size := 5 }] ∧
      (assocGet c8_final.books "T").map
        (fun st => st.to_orderbook.asks.levels) =
          some [{ price := 11/20, size := 8 }] ∧
      (drain_dirty c8_final).1.count "T" = 1) ∧
    (∀ (c : WSBookCache) (ts : ℚ) (ch : PriceChangeMsg),
      ch.asset_id ≠ "" → ch.side.toUpper = "BUY" →
      ∃ st, assocGet (apply_market_event c (.price_change [ch] ts)).books
              ch.asset_id = some st ∧
        st.asks_by_price = (entry_start_state c.books ts ch.asset_id).asks_by_price ∧
        (0 < ch.size → assocGet st.bids_by_price ch.price = some ch.size) ∧
        (ch.size ≤ 0 →
          (((entry_start_state c.books ts ch.asset_id).bids_by_price.map
              Prod.fst).Nodup) →
          assocGet st.bids_by_price ch.price = none) ∧
        (∀ p, p ≠ ch.price →
          assocGet st.bids_by_price p =
            assocGet (entry_start_state c.books ts ch.asset_id).bids_by_price p) ∧
        (apply_market_event c (.price_change [ch] ts)).dirty_token_ids =
          dirtyAdd c.dirty_token_ids ch.asset_id) ∧
    (∀ (c : WSBookCache) (ts : ℚ) (ch : PriceChangeMsg),
      ch.asset_id ≠ "" → ch.side.toUpper = "SELL" →
      ∃ st, assocGet (apply_market_event c (.price_change [ch] ts)).books
              ch.asset_id = some st ∧
        st.bids_by_price = (entry_start_state c.books ts ch.asset_id).bids_by_price ∧
        (0 < ch.size → assocGet st.asks_by_price ch.price = some ch.size) ∧
        (ch.size ≤ 0 →
          (((entry_start_state c.books ts ch.asset_id).asks_by_price.map
              Prod.fst).Nodup) →
          assocGet st.asks_by_price ch.price = none) ∧
        (∀ p, p ≠ ch.price →
          assocGet st.asks_by_price p =
            assocGet (entry_start_state c.books ts ch.asset_id).asks_by_price p)) ∧
    (∀ (d : List String) (t : String), d.Nodup →
      (dirtyAdd d t).Nodup ∧ (dirtyAdd d t).count t = 1) := by
  refine ⟨?_, ?_, ?_, ?_⟩
  · refine ⟨?_, ?_, ?_⟩ <;> with_unfolding_all decide
  · intro c ts ch hid hside
    simp only [apply_market_event, List.foldl_cons, List.foldl_nil,
      apply_price_change_entry, if_neg hid, hside, if_pos rfl]
    by_cases hsz : ch.size ≤ 0
    · refine ⟨_, assocGet_assocSet_self _ _ _, ?_⟩
      simp only [if_pos hsz]
      refine ⟨rfl, ?_, ?_, ?_, trivial⟩
      · intro h0; exact absurd h0 (by linarith)
      · intro _ hnd; exact assocGet_assocPop_self _ _ hnd
      · intro p hp; exact assocGet_assocPop_other _ _ _ hp
    · refine ⟨_, assocGet_assocSet_self _ _ _, ?_⟩
      simp only [if_neg hsz]
      refine ⟨rfl, ?_, ?_, ?_, trivial⟩
      · intro _; exact assocGet_assocSet_self _ _ _
      · intro h0; exact absurd h0 hsz
      · intro p hp; exact assocGet_assocSet_other _ _ _ _ hp
  · intro c ts ch hid hside
    have hnb : ¬ ch.side.toUpper = "BUY" := by
      rw [hside]; intro hcontra; exact absurd hcontra (by decide)
    simp only [apply_market_event, List.foldl_cons, List.foldl_nil,
      apply_price_change_entry, if_neg hid, hside, if_neg hnb, if_pos rfl]
    by_cases hsz : ch.size ≤ 0
    · refine ⟨_, assocGet_assocSet_self _ _ _, ?_⟩
      simp only [if_pos hsz]
      refine ⟨rfl, ?_, ?_, ?_⟩
      · intro h0; exact absurd h0 (by linarith)
      · intro _ hnd; exact assocGet_assocPop_self _ _ hnd
      · intro p hp; exact assocGet_assocPop_other _ _ _ hp
    · refine ⟨_, assocGet_assocSet_self _ _ _, ?_⟩
      simp only [if_neg hsz]
      refine ⟨rfl, ?_, ?_, ?_⟩
      · intro _; exact assocGet_assocSet_self _ _ _
      · intro h0; exact absurd h0 hsz
      · intro p hp; exact assocGet_assocSet_other _ _ _ _ hp
  · intro d t hnd
    unfold dirtyAdd
    by_cases hmem : t ∈ d
    · rw [if_pos hmem]
      exact ⟨hnd, List.count_eq_one_of_mem hnd hmem⟩
    · rw [if_neg hmem]
      constructor
      · simpa [List.nodup_append] using ⟨hnd, fun h => hmem h⟩
      · have : d.count t = 0 := List.count_eq_zero.mpr hmem
        simp [List.count_append, this]

def c8w_cache : WSBookCache :=
  { books := [("T",
      { token_id := "T", bids_by_price := [(2/5, 10)], asks_by_price := []
        last_ts := 0 })]
    dirty_token_ids := [] }

def c8w_ch : PriceChangeMsg :=
  { asset_id := "T", price := 2/5, size := 0, side := "BUY" }

theorem C8_witness :
    (c8w_ch.asset_id ≠ "" ∧ c8w_ch.side.toUpper = "BUY") ∧
    (∃ st, assocGet (apply_market_event c8w_cache
        (MarketEvent.price_change [c8w_ch] 1)).books c8w_ch.asset_id = some st ∧
      st.asks_by_price =
        (entry_start_state c8w_cache.books 1 c8w_ch.asset_id).asks_by_price ∧
      (0 < c8w_ch.size →
        assocGet st.bids_by_price c8w_ch.price = some c8w_ch.size) ∧
      (c8w_ch.size ≤ 0 →
        (((entry_start_state c8w_cache.books 1
            c8w_ch.asset_id).bids_by_price.map Prod.fst).Nodup) →
        assocGet st.bids_by_price c8w_ch.price = none) ∧
      (∀ p, p ≠ c8w_ch.price →
        assocGet st.bids_by_price p =
          assocGet (entry_start_state c8w_cache.books 1
            c8w_ch.asset_id).bids_by_price p) ∧
      (apply_market_event c8w_cache
          (MarketEvent.price_change [c8w_ch] 1)).dirty_token_ids =
        dirtyAdd c8w_cache.dirty_token_ids c8w_ch.asset_id) :=
  ⟨⟨by with_unfolding_all decide, by with_unfolding_all decide⟩,
    C8_price_change_merge.2.1 c8w_cache 1 c8w_ch
      (by with_unfolding_all decide) (by with_unfolding_all decide)⟩

/- ===================== Market catalog: token-id handling ================ -/

/-- A Python value as seen by `normalize_token_ids` after any JSON
decoding: `None`, a string, a list, or some other scalar carried together
with its `str()` rendering. -/
inductive PyVal
  | pyNone
  | pyStr (s : String)
  | pyList (items : List PyVal)
  | pyOther (s : String)

/-- Python `str(value)`.  The exact rendering of a nested list is
irrelevant to every property proved here. -/
def pyStrOf : PyVal → String
  | .pyNone => "None"
  | .pyStr s => s
  | .pyList _ => "[...]"
  | .pyOther s => s

/-- Python `s.strip('"')`: drop double quotes from both ends. -/
def stripQuotes (s : String) : String :=
  String.mk (((s.data.dropWhile (· == '"')).reverse.dropWhile (· == '"')).reverse)

/-- Strip whitespace then quotes, keep only a non-empty token. -/
def cleanToken (s : String) : List String :=
  let token := stripQuotes s.trim
  if token = "" then [] else [token]

/-- The list/tuple and trailing scalar branches of `normalize_token_ids`,
reached after any JSON decoding of string input. -/
def normalize_token_vals : PyVal → List String
  | .pyList items =>
    items.foldl
      (fun out item =>
        match item with
        | .pyNone => out
        | _ => out ++ cleanToken (pyStrOf item))
      []
  | .pyNone => []
  | w => cleanToken (pyStrOf w)

/-- `normalize_token_ids`: `None` and blank strings give `[]`; a string is
JSON-decoded (`jsonDecode` models `json.loads`, `none` being a decode
failure) and a decoded null gives `[]`, a decoded string one token, any
other decoded value falls through to the list/scalar handling; non-string
input goes to the list/scalar handling directly. -/
def normalize_token_ids (jsonDecode : String → Option PyVal) : PyVal → List String
  | .pyNone => []
  | .pyStr raw =>
    let s := raw.trim
    if s = "" then []
    else
      match jsonDecode s with
      | none => cleanToken s
      | some .pyNone => []
      | some (.pyStr d) => cleanToken d
      | some w => normalize_token_vals w
  | w => normalize_token_vals w

/-- One market row as returned by the catalog lookup, with the end-date
parse outcome carried as an already-interpreted field. -/
structure GammaMarket where
  clobTokenIds : PyVal
  outcomes : List String
  endDateParsed : Option Int
  conditionId : String
  question : String
  volume : ℚ

/-- Cached metadata for a single market. -/
structure BTC15MarketInfo where
  slug : String
  condition_id : String
  question : String
  end_date : Int
  outcomes : List String
  token_ids : List String
  volume_usdc : ℚ
deriving DecidableEq, Repr

/-- `_fetch_market_details`: take the first market row; fail only when no
row exists or the end date does not parse; when the normalized
`clobTokenIds` has fewer than two entries, substitute index-derived
placeholder IDs (one per outcome) and return the record anyway. -/
def fetch_market_details (jsonDecode : String → Option PyVal) (slug : String) :
    List GammaMarket → Option BTC15MarketInfo
  | [] => none
  | m :: _ =>
    match m.endDateParsed with
    | none => none
    | some d =>
      let tids := normalize_token_ids jsonDecode m.clobTokenIds
      let tids :=
        if tids.length < 2 then (List.range m.outcomes.length).map toString
        else tids
      some
        { slug := slug
          condition_id := m.conditionId
          question := m.question
          end_date := d
          outcomes := m.outcomes
          token_ids := tids
          volume_usdc := m.volume }

/- ===================== Claim C2 ===================== -/

/-- Decode oracle used in the counterexample (nothing decodes). -/
def noDecode : String → Option PyVal := fun _ => none

/-- Market row whose `clobTokenIds` normalizes to the empty list. -/
def cex2_market : GammaMarket :=
  { clobTokenIds := .pyList []
    outcomes := ["Up", "Down"]
    endDateParsed := some 0
    conditionId := "c"
    question := "q"
    volume := 0 }

/-- C2 counterexample: a market whose normalized `clobTokenIds` has fewer
than two usable token IDs is **not** rejected — the catalog substitutes the
placeholder IDs `["0", "1"]` derived from the outcome indices and returns
(hence caches) the record. -/
theorem C2_counterexample :
    (normalize_token_ids noDecode cex2_market.clobTokenIds).length < 2 ∧
    fetch_market_details noDecode "btc-updown-15m-0" [cex2_market] =
      some
        { slug := "btc-updown-15m-0"
          condition_id := "c"
          question := "q"
          end_date := 0
          outcomes := ["Up", "Down"]
          token_ids := ["0", "1"]
          volume_usdc := 0 } := by
  constructor
  · with_unfolding_all decide
  · with_unfolding_all decide

/-- C2 (amended): a market record whose normalized `clobTokenIds` list has
fewer than two usable token IDs is not rejected; provided a market row
exists and its end date parses, the catalog returns (and caches) metadata
whose `token_ids` are the index-derived placeholders `"0", "1", …`, one
per outcome label. -/
theorem C2_short_token_ids_kept (jsonDecode : String → Option PyVal)
    (slug : String) (m : GammaMarket) (rest : List GammaMarket) (d : Int)
    (hlen : (normalize_token_ids jsonDecode m.clobTokenIds).length < 2)
    (hd : m.endDateParsed = some d) :
    fetch_market_details jsonDecode slug (m :: rest) =
      some
        { slug := slug
          condition_id := m.conditionId
          question := m.question
          end_date := d
          outcomes := m.outcomes
          token_ids := (List.range m.outcomes.length).map toString
          volume_usdc := m.volume } := by
  simp only [fetch_market_details]
  rw [hd]
  simp only [if_pos hlen]

theorem C2_witness :
    fetch_market_details noDecode "s" [cex2_market] =
      some
        { slug := "s"
          condition_id := cex2_market.conditionId
          question := cex2_market.question
          end_date := 0
          outcomes := cex2_market.outcomes
          token_ids := (List.range cex2_market.outcomes.length).map toString
          volume_usdc := cex2_market.volume } :=
  C2_short_token_ids_kept noDecode "s" cex2_market [] 0
    (by with_unfolding_all decide) (by with_unfolding_all decide)

/- ===================== Order placer: fill predicate ===================== -/

/-- The numeric and status fields `_order_looks_filled` reads from an
order-status payload; `none` is an absent key. -/
structure OrderStatusRaw where
  status : Option String
  size : Option ℚ
  original_size : Option ℚ
  size_matched : Option ℚ
  matched : Option ℚ
  filled : Option ℚ
  filled_size : Option ℚ
  remaining : Option ℚ
  size_remaining : Option ℚ
deriving DecidableEq, Repr

/-- Python `a or b` over optional floats: both `None` and `0.0` are falsy,
so the right operand's value is returned for either. -/
def pyOrF (a b : Option ℚ) : Option ℚ :=
  match a with
  | some x => if x = 0 then b else some x
  | none => b

/-- `_order_looks_filled`: terminal statuses first, then the `remaining`
check, then cumulative-matched versus target with a `1e-9` epsilon.  The
payload itself is `none` for an empty/missing response. -/
def order_looks_filled (raw : Option OrderStatusRaw) (target_size : Option ℚ) :
    Bool :=
  match raw with
  | none => false
  | some r =>
    let status := (r.status.getD "").toUpper
    if status = "FILLED" ∨ status = "EXECUTED" then true
    else if status = "CANCELED" ∨ status = "CANCELLED" ∨
        status = "REJECTED" ∨ status = "FAILED" then false
    else
      let size := pyOrF r.size r.original_size
      let matched :=
        pyOrF (pyOrF (pyOrF r.size_matched r.matched) r.filled) r.filled_size
      let remaining := pyOrF r.remaining r.size_remaining
      let remHit := match remaining with
        | some rem => decide (rem ≤ 0)
        | none => false
      if remHit then true
      else
        let effective_target := match target_size with
          | some t => some t
          | none => size
        match effective_target, matched with
        | some t, some m => decide (m + 1/1000000000 ≥ t)
        | _, _ => false

/- ===================== Claim C9 ===================== -/

/-- A status payload that reports `remaining = 0` through the `remaining`
key alone: a fully filled order. -/
def cex9 : OrderStatusRaw :=
  { status := none, size := none, original_size := none, size_matched := none
    matched := none, filled := none, filled_size := none
    remaining := some 0, size_remaining := none }

/-- C9: the code drops a reported `remaining = 0`.  Because Python's `or`
treats the float `0.0` as falsy, `f("remaining") or f("size_remaining")`
turns a present `remaining = 0` into a missing value, so the predicate
returns `false` for a payload that reports zero remaining size — although
the adjacent `remaining <= 0` branch (and the spec) treat exactly that
payload as filled, and the same payload delivered through the
`size_remaining` key does return `true`. -/
theorem C9_remaining_zero_dropped :
    cex9.remaining = some 0 ∧
    order_looks_filled (some cex9) (some 5) = false ∧
    order_looks_filled
      (some { cex9 with remaining := none, size_remaining := some 0 })
      (some 5) = true := by
  refine ⟨rfl, ?_, ?_⟩ <;> with_unfolding_all decide

/- ===================== Two-phase executor: data model =================== -/

/-- Execution states of the two-phase state machine. -/
inductive ExecState
  | PLANNED
  | LEG_A_PLACED
  | LEG_A_FILLED
  | LEG_B_PLACED
  | HEDGED_FILLED
  | DONE
  | ABORTED
deriving DecidableEq, Repr

/-- The configuration fields `execute_bracket` reads.  A cap value of `0`
is "disabled" (Python float truthiness). -/
structure ExecutionConfig where
  max_open_brackets : ℕ
  max_estimated_usdc_per_bracket : ℚ
  daily_estimated_usdc_cap : ℚ
  trading_enabled : Bool
  dry_run : Bool
deriving DecidableEq, Repr

/-- Persisted execution record.  `created_day` is the UTC-day part of
`created_at`; the raw JSON blobs are not modelled (no claim reads them
back beyond the stored external IDs). -/
structure BTC15ExecutionRecord where
  execution_id : String
  slug : String
  up_token_id : String
  down_token_id : String
  target_shares : ℚ
  state : ExecState
  created_day : String
  leg_a_job_id : Option String
  leg_b_job_id : Option String
  leg_a_order_id : Option String
  leg_b_order_id : Option String
  estimated_total_usdc : ℚ
deriving DecidableEq, Repr

/-- `SELECT * WHERE execution_id = ?` on the orders table. -/
def storeGet : List BTC15ExecutionRecord → String → Option BTC15ExecutionRecord
  | [], _ => none
  | r :: rest, eid => if r.execution_id = eid then some r else storeGet rest eid

/-- Upsert on the primary key `execution_id` (total-row replacement). -/
def storeUpsert : List BTC15ExecutionRecord → BTC15ExecutionRecord →
    List BTC15ExecutionRecord
  | [], r => [r]
  | x :: rest, r =>
    if x.execution_id = r.execution_id then r :: rest else x :: storeUpsert rest r

/-- `count_open`: number of records in a non-terminal state. -/
def count_open (store : List BTC15ExecutionRecord) : ℕ :=
  (store.filter
    (fun r => decide (r.state ≠ .DONE) && decide (r.state ≠ .ABORTED))).length

/-- `sum_estimated_usdc_for_day`: sum of estimated notional over the
records created on the given UTC day. -/
def sum_estimated_usdc_for_day (store : List BTC15ExecutionRecord)
    (day : String) : ℚ :=
  ((store.filter (fun r => decide (r.created_day = day))).map
    (fun r => r.estimated_total_usdc)).sum

lemma storeGet_storeUpsert_self (s : List BTC15ExecutionRecord)
    (r : BTC15ExecutionRecord) :
    storeGet (storeUpsert s r) r.execution_id = some r := by
  induction s with
  | nil => simp [storeUpsert, storeGet]
  | cons x rest ih =>
    by_cases h : x.execution_id = r.execution_id
    · simp [storeUpsert, storeGet, h]
    · simp [storeUpsert, storeGet, h, ih]

lemma storeGet_storeUpsert_other (s : List BTC15ExecutionRecord)
    (r : BTC15ExecutionRecord) (eid : String) (h : r.execution_id ≠ eid) :
    storeGet (storeUpsert s r) eid = storeGet s eid := by
  induction s with
  | nil => simp [storeUpsert, storeGet, h]
  | cons x rest ih =>
    by_cases hx : x.execution_id = r.execution_id
    · have hxe : x.execution_id ≠ eid := by rw [hx]; exact h
      simp only [storeUpsert, if_pos hx, storeGet, if_neg h, if_neg hxe]
    · by_cases hxe : x.execution_id = eid
      · simp only [storeUpsert, if_neg hx, storeGet, if_pos hxe]
      · simp only [storeUpsert, if_neg hx, storeGet, if_neg hxe]
        exact ih

lemma storeGet_id (s : List BTC15ExecutionRecord) (eid : String)
    (r : BTC15ExecutionRecord) (h : storeGet s eid = some r) :
    r.execution_id = eid := by
  induction s with
  | nil => simp [storeGet] at h
  | cons x rest ih =>
    by_cases hx : x.execution_id = eid
    · simp only [storeGet, if_pos hx, Option.some.injEq] at h
      rw [← h]; exact hx
    · simp only [storeGet, if_neg hx] at h
      exact ih h

lemma storeUpsert_of_absent (s : List BTC15ExecutionRecord)
    (r : BTC15ExecutionRecord) (h : storeGet s r.execution_id = none) :
    storeUpsert s r = s ++ [r] := by
  induction s with
  | nil => simp [storeUpsert]
  | cons x rest ih =>
    by_cases hx : x.execution_id = r.execution_id
    · simp [storeGet, hx] at h
    · simp only [storeGet, if_neg hx] at h
      simp [storeUpsert, hx, ih h]

lemma sum_day_cons (x : BTC15ExecutionRecord)
    (rest : List BTC15ExecutionRecord) (d : String) :
    sum_estimated_usdc_for_day (x :: rest) d =
      (if x.created_day = d then x.estimated_total_usdc else 0) +
        sum_estimated_usdc_for_day rest d := by
  unfold sum_estimated_usdc_for_day
  by_cases h : x.created_day = d
  · simp [h]
  · simp [h]

lemma sum_day_append (s t : List BTC15ExecutionRecord) (d : String) :
    sum_estimated_usdc_for_day (s ++ t) d =
      sum_estimated_usdc_for_day s d + sum_estimated_usdc_for_day t d := by
  induction s with
  | nil => simp [sum_estimated_usdc_for_day]
  | cons x rest ih => simp [sum_day_cons, ih]; ring

lemma sum_day_storeUpsert (s : List BTC15ExecutionRecord)
    (q r : BTC15ExecutionRecord) (d : String)
    (hget : storeGet s r.execution_id = some q)
    (hday : q.created_day = r.created_day)
    (hest : q.estimated_total_usdc = r.estimated_total_usdc) :
    sum_estimated_usdc_for_day (storeUpsert s r) d =
      sum_estimated_usdc_for_day s d := by
  induction s with
  | nil => simp [storeGet] at hget
  | cons x rest ih =>
    by_cases hx : x.execution_id = r.execution_id
    · simp only [storeGet, if_pos hx, Option.some.injEq] at hget
      subst hget
      simp only [storeUpsert, if_pos hx, sum_day_cons, hday, hest]
    · simp only [storeGet, if_neg hx] at hget
      simp only [storeUpsert, if_neg hx, sum_day_cons, ih hget]

/- ===================== Two-phase executor: the state machine ============ -/

/-- Kind of external identifier a leg executor returns. -/
inductive IdKind
  | job
  | order
deriving DecidableEq, Repr

/-- What one fresh placement of a leg produces: the external identifier,
its kind, and whether the follow-up confirmation reports a fill. -/
structure LegResult where
  id_kind : IdKind
  ext_id : String
  confirm_filled : Bool
deriving DecidableEq, Repr

/-- The outcomes the environment (exchange, leg executor, clock) supplies
to one `execute_bracket` call. -/
structure CallEnv where
  leg_a : LegResult
  leg_b : LegResult
  resume_confirm_a : Bool
  resume_confirm_b : Bool
  unhedged_timeout : Bool
deriving DecidableEq, Repr

/-- Arguments of one `execute_bracket` call; `today` is the UTC day at
call time. -/
structure CallArgs where
  execution_id : String
  slug : String
  up_token_id : String
  down_token_id : String
  target_shares : ℚ
  up_price_limit : ℚ
  down_price_limit : ℚ
  estimated_total_usdc : ℚ
  today : String
deriving DecidableEq, Repr

/-- Externally visible actions of one call: leg placements, fill
confirmations (with the external ID used) and store writes. -/
inductive Ev
  | placeA (eid ext : String)
  | placeB (eid ext : String)
  | confirmA (eid ext : String)
  | confirmB (eid ext : String)
  | write (eid : String) (st : ExecState)
deriving DecidableEq, Repr

def ev_eid : Ev → String
  | .placeA e _ => e
  | .placeB e _ => e
  | .confirmA e _ => e
  | .confirmB e _ => e
  | .write e _ => e

def is_place_a : Ev → Bool
  | .placeA _ _ => true
  | _ => false

def is_place_b : Ev → Bool
  | .placeB _ _ => true
  | _ => false

/-- The states written for a given execution id, in order. -/
def state_writes (tr : List Ev) (eid : String) : List ExecState :=
  tr.filterMap (fun e =>
    match e with
    | .write e2 st => if e2 = eid then some st else none
    | _ => none)

/-- Python truthiness of an optional string. -/
def opt_truthy (o : Option String) : Bool :=
  match o with
  | some s => decide (s ≠ "")
  | none => false

/-- `"order" if rec.leg_a_order_id else "job"`. -/
def stored_kind_a (r : BTC15ExecutionRecord) : IdKind :=
  if opt_truthy r.leg_a_order_id then .order else .job

/-- `rec.leg_a_order_id or rec.leg_a_job_id or ""`. -/
def stored_ext_a (r : BTC15ExecutionRecord) : String :=
  if opt_truthy r.leg_a_order_id then r.leg_a_order_id.getD ""
  else if opt_truthy r.leg_a_job_id then r.leg_a_job_id.getD ""
  else ""

def stored_kind_b (r : BTC15ExecutionRecord) : IdKind :=
  if opt_truthy r.leg_b_order_id then .order else .job

def stored_ext_b (r : BTC15ExecutionRecord) : String :=
  if opt_truthy r.leg_b_order_id then r.leg_b_order_id.getD ""
  else if opt_truthy r.leg_b_job_id then r.leg_b_job_id.getD ""
  else ""

/-- Control flow between the sequential blocks of `execute_bracket`: a
`ret` is an early `return`, a `cont` falls through to the next block. -/
inductive ExecFlow
  | ret (success : Bool) (store : List BTC15ExecutionRecord) (tr : List Ev)
  | cont (r : BTC15ExecutionRecord) (store : List BTC15ExecutionRecord) (tr : List Ev)

def ExecFlow.andThen (f : ExecFlow)
    (k : BTC15ExecutionRecord → List BTC15ExecutionRecord → List Ev → ExecFlow) :
    ExecFlow :=
  match f with
  | .ret s st tr => .ret s st tr
  | .cont r st tr => k r st tr

/-- Fresh leg-A block (entered at PLANNED): persist LEG_A_PLACED, place,
persist the external id, confirm, then LEG_A_FILLED or ABORTED. -/
def leg_a_fresh (env : CallEnv) (a : CallArgs) (r : BTC15ExecutionRecord)
    (store : List BTC15ExecutionRecord) (tr : List Ev) : ExecFlow :=
  if r.state = .PLANNED then
    let r1 := { r with state := .LEG_A_PLACED }
    let store1 := storeUpsert store r1
    let tr1 := tr ++ [Ev.write a.execution_id .LEG_A_PLACED]
    let ext := env.leg_a.ext_id
    let r2 :=
      match env.leg_a.id_kind with
      | .job => { r1 with leg_a_job_id := some ext }
      | .order => { r1 with leg_a_order_id := some ext }
    let store2 := storeUpsert store1 r2
    let tr2 := tr1 ++ [Ev.placeA a.execution_id ext] ++ [Ev.write a.execution_id .LEG_A_PLACED]
    let store3 := storeUpsert store2 r2
    let tr3 := tr2 ++ [Ev.confirmA a.execution_id ext] ++ [Ev.write a.execution_id .LEG_A_PLACED]
    if env.leg_a.confirm_filled then
      let r3 := { r2 with state := .LEG_A_FILLED }
      ExecFlow.cont r3 (storeUpsert store3 r3) (tr3 ++ [Ev.write a.execution_id .LEG_A_FILLED])
    else
      let r3 := { r2 with state := .ABORTED }
      ExecFlow.ret false (storeUpsert store3 r3) (tr3 ++ [Ev.write a.execution_id .ABORTED])
  else ExecFlow.cont r store tr

/-- Resume leg-A block (entered at LEG_A_PLACED): re-confirm the stored
external id without placing again. -/
def leg_a_resume (env : CallEnv) (a : CallArgs) (r : BTC15ExecutionRecord)
    (store : List BTC15ExecutionRecord) (tr : List Ev) : ExecFlow :=
  if r.state = .LEG_A_PLACED then
    let ext := stored_ext_a r
    let tr1 := tr ++ [Ev.confirmA a.execution_id ext]
    if env.resume_confirm_a then
      let r1 := { r with state := .LEG_A_FILLED }
      ExecFlow.cont r1 (storeUpsert store r1) (tr1 ++ [Ev.write a.execution_id .LEG_A_FILLED])
    else
      let r1 := { r with state := .ABORTED }
      ExecFlow.ret false (storeUpsert store r1) (tr1 ++ [Ev.write a.execution_id .ABORTED])
  else ExecFlow.cont r store tr

/-- Fresh leg-B block (entered at LEG_A_FILLED): unhedged-time guard, then
place/confirm leg B symmetrically. -/
def leg_b_fresh (env : CallEnv) (a : CallArgs) (r : BTC15ExecutionRecord)
    (store : List BTC15ExecutionRecord) (tr : List Ev) : ExecFlow :=
  if r.state = .LEG_A_FILLED then
    if env.unhedged_timeout then
      let r1 := { r with state := .ABORTED }
      ExecFlow.ret false (storeUpsert store r1) (tr ++ [Ev.write a.execution_id .ABORTED])
    else
      let r1 := { r with state := .LEG_B_PLACED }
      let store1 := storeUpsert store r1
      let tr1 := tr ++ [Ev.write a.execution_id .LEG_B_PLACED]
      let ext := env.leg_b.ext_id
      let r2 :=
        match env.leg_b.id_kind with
        | .job => { r1 with leg_b_job_id := some ext }
        | .order => { r1 with leg_b_order_id := some ext }
      let store2 := storeUpsert store1 r2
      let tr2 := tr1 ++ [Ev.placeB a.execution_id ext] ++ [Ev.write a.execution_id .LEG_B_PLACED]
      let store3 := storeUpsert store2 r2
      let tr3 := tr2 ++ [Ev.confirmB a.execution_id ext] ++ [Ev.write a.execution_id .LEG_B_PLACED]
      if env.leg_b.confirm_filled then
        let r3 := { r2 with state := .HEDGED_FILLED }
        ExecFlow.cont r3 (storeUpsert store3 r3) (tr3 ++ [Ev.write a.execution_id .HEDGED_FILLED])
      else
        let r3 := { r2 with state := .ABORTED }
        ExecFlow.ret false (storeUpsert store3 r3) (tr3 ++ [Ev.write a.execution_id .ABORTED])
  else ExecFlow.cont r store tr

/-- Resume leg-B block (entered at LEG_B_PLACED). -/
def leg_b_resume (env : CallEnv) (a : CallArgs) (r : BTC15ExecutionRecord)
    (store : List BTC15ExecutionRecord) (tr : List Ev) : ExecFlow :=
  if r.state = .LEG_B_PLACED then
    let ext := stored_ext_b r
    let tr1 := tr ++ [Ev.confirmB a.execution_id ext]
    if env.resume_confirm_b then
      let r1 := { r with state := .HEDGED_FILLED }
      ExecFlow.cont r1 (storeUpsert store r1) (tr1 ++ [Ev.write a.execution_id .HEDGED_FILLED])
    else
      let r1 := { r with state := .ABORTED }
      ExecFlow.ret false (storeUpsert store r1) (tr1 ++ [Ev.write a.execution_id .ABORTED])
  else ExecFlow.cont r store tr

/-- Final block: HEDGED_FILLED commits to DONE and returns success;
anything else returns failure. -/
def finish_block (a : CallArgs) (r : BTC15ExecutionRecord)
    (store : List BTC15ExecutionRecord) (tr : List Ev) : ExecFlow :=
  if r.state = .HEDGED_FILLED then
    let r1 := { r with state := .DONE }
    ExecFlow.ret true (storeUpsert store r1) (tr ++ [Ev.write a.execution_id .DONE])
  else ExecFlow.ret false store tr

def run_phases (env : CallEnv) (a : CallArgs) (r : BTC15ExecutionRecord)
    (store : List BTC15ExecutionRecord) (tr : List Ev) : ExecFlow :=
  ((((leg_a_fresh env a r store tr).andThen
      (leg_a_resume env a)).andThen
      (leg_b_fresh env a)).andThen
      (leg_b_resume env a)).andThen
      (finish_block a)

/-- Result of one `execute_bracket` call. -/
structure ExecResult where
  success : Bool
  store : List BTC15ExecutionRecord
  trace : List Ev

def ExecFlow.toResult : ExecFlow → ExecResult
  | .ret s st tr => { success := s, store := st, trace := tr }
  | .cont _ st tr => { success := false, store := st, trace := tr }

/-- A freshly created record at PLANNED. -/
def new_record (a : CallArgs) : BTC15ExecutionRecord :=
  { execution_id := a.execution_id
    slug := a.slug
    up_token_id := a.up_token_id
    down_token_id := a.down_token_id
    target_shares := a.target_shares
    state := .PLANNED
    created_day := a.today
    leg_a_job_id := none
    leg_b_job_id := none
    leg_a_order_id := none
    leg_b_order_id := none
    estimated_total_usdc := a.estimated_total_usdc }

/-- `execute_bracket`: risk gates (kill switch, per-bracket cap, daily
cap, open-bracket brake) in source order, then get-or-create, the
idempotent terminal check, and the leg blocks. -/
def execute_bracket (cfg : ExecutionConfig)
    (store : List BTC15ExecutionRecord) (env : CallEnv) (a : CallArgs) :
    ExecResult :=
  if cfg.dry_run = false ∧ cfg.trading_enabled = false then
    { success := false, store := store, trace := [] }
  else if cfg.max_estimated_usdc_per_bracket ≠ 0 ∧
      a.estimated_total_usdc > cfg.max_estimated_usdc_per_bracket then
    { success := false, store := store, trace := [] }
  else if cfg.daily_estimated_usdc_cap ≠ 0 ∧
      sum_estimated_usdc_for_day store a.today + a.estimated_total_usdc >
        cfg.daily_estimated_usdc_cap then
    { success := false, store := store, trace := [] }
  else if cfg.max_open_brackets ≤ count_open store then
    { success := false, store := store, trace := [] }
  else
    match storeGet store a.execution_id with
    | some r =>
      if r.state = .DONE ∨ r.state = .ABORTED then
        { success := decide (r.state = .DONE), store := store, trace := [] }
      else (run_phases env a r store []).toResult
    | none =>
      let r := new_record a
      (run_phases env a r (storeUpsert store r)
        [Ev.write a.execution_id .PLANNED]).toResult

/-- The four risk-gate conditions of `execute_bracket`, all passing. -/
def risk_gates_pass (cfg : ExecutionConfig)
    (store : List BTC15ExecutionRecord) (a : CallArgs) : Prop :=
  ¬(cfg.dry_run = false ∧ cfg.trading_enabled = false) ∧
  ¬(cfg.max_estimated_usdc_per_bracket ≠ 0 ∧
      a.estimated_total_usdc > cfg.max_estimated_usdc_per_bracket) ∧
  ¬(cfg.daily_estimated_usdc_cap ≠ 0 ∧
      sum_estimated_usdc_for_day store a.today + a.estimated_total_usdc >
        cfg.daily_estimated_usdc_cap) ∧
  count_open store < cfg.max_open_brackets

instance (cfg : ExecutionConfig) (store : List BTC15ExecutionRecord)
    (a : CallArgs) : Decidable (risk_gates_pass cfg store a) := by
  unfold risk_gates_pass; infer_instance

/-- A sequence of calls from a starting store, with the concatenated
trace. -/
def run_calls (cfg : ExecutionConfig) :
    List BTC15ExecutionRecord × List Ev → List (CallEnv × CallArgs) →
    List BTC15ExecutionRecord × List Ev
  | st, [] => st
  | (store, tr), c :: rest =>
    let res := execute_bracket cfg store c.1 c.2
    run_calls cfg (res.store, tr ++ res.trace) rest

/- ===================== Execution state DAG and traces =================== -/

def is_terminal (s : ExecState) : Bool := s == .DONE || s == .ABORTED

/-- Edges of the execution DAG: the forward chain plus ABORTED from any
non-terminal state. -/
def dag_step : ExecState → ExecState → Bool
  | .PLANNED, .LEG_A_PLACED => true
  | .LEG_A_PLACED, .LEG_A_FILLED => true
  | .LEG_A_FILLED, .LEG_B_PLACED => true
  | .LEG_B_PLACED, .HEDGED_FILLED => true
  | .HEDGED_FILLED, .DONE => true
  | s, .ABORTED => !(is_terminal s)
  | _, _ => false

/-- A DAG edge or a repeat of the same state. -/
def step_eq (s t : ExecState) : Bool := s == t || dag_step s t

/-- `l` is a path in the DAG starting from (but not including) `s`. -/
def chain_from (s : ExecState) : List ExecState → Bool
  | [] => true
  | x :: xs => dag_step s x && chain_from x xs

/-- Like `chain_from` but allowing consecutive repeats. -/
def chain_stutter (s : ExecState) : List ExecState → Bool
  | [] => true
  | x :: xs => step_eq s x && chain_stutter x xs

/-- Remove consecutive repeats, given the previously seen state. -/
def dedup_from (s : ExecState) : List ExecState → List ExecState
  | [] => []
  | x :: xs => if x = s then dedup_from s xs else x :: dedup_from x xs

/-- Collapse consecutive repeated states. -/
def dedup_consec : List ExecState → List ExecState
  | [] => []
  | x :: xs => x :: dedup_from x xs

/-- After collapsing repeats, the write sequence is a path through the
DAG starting at PLANNED (or is empty). -/
def dag_trace_ok (l : List ExecState) : Bool :=
  match dedup_consec l with
  | [] => true
  | x :: xs => (x == .PLANNED) && chain_from x xs

/-- A terminal state may only be the last write. -/
def terminal_only_last (l : List ExecState) : Bool :=
  l.dropLast.all (fun s => !(is_terminal s))

def last_state (s : ExecState) (l : List ExecState) : ExecState :=
  (l.getLast?).getD s

lemma last_state_cons (s x : ExecState) (xs : List ExecState) :
    last_state s (x :: xs) = last_state x xs := by
  cases xs with
  | nil => simp [last_state]
  | cons y ys =>
    unfold last_state
    rw [List.getLast?_cons_cons]
    have h1 : (y :: ys).getLast?.isSome := by
      rw [List.getLast?_isSome]; simp
    obtain ⟨z, hz⟩ := Option.isSome_iff_exists.mp h1
    rw [hz]
    rfl

lemma chain_stutter_append (s : ExecState) (l m : List ExecState) :
    chain_stutter s (l ++ m) =
      (chain_stutter s l && chain_stutter (last_state s l) m) := by
  induction l generalizing s with
  | nil => simp [chain_stutter, last_state]
  | cons x xs ih =>
    simp only [List.cons_append, chain_stutter, List.append_eq, ih,
      last_state_cons, Bool.and_assoc]

lemma chain_stutter_dedup (s : ExecState) (l : List ExecState) :
    chain_stutter s l = chain_from s (dedup_from s l) := by
  induction l generalizing s with
  | nil => simp [chain_stutter, dedup_from, chain_from]
  | cons x xs ih =>
    by_cases hx : x = s
    · subst hx
      simp [chain_stutter, dedup_from, step_eq, ih]
    · have hbe : (s == x) = false := by
        simp [beq_iff_eq]; exact fun h => hx h.symm
      simp [chain_stutter, dedup_from, hx, chain_from, step_eq, hbe, ih]

lemma all_nonterminal_of_tol (l : List ExecState) (s : ExecState)
    (htol : terminal_only_last l = true) (hlast : l.getLast? = some s)
    (hs : is_terminal s = false) :
    l.all (fun x => !(is_terminal x)) = true := by
  induction l with
  | nil => simp at hlast
  | cons x xs ih =>
    cases xs with
    | nil =>
      simp only [List.getLast?_singleton, Option.some.injEq] at hlast
      subst hlast
      simp [hs]
    | cons y ys =>
      have htol2 : terminal_only_last (y :: ys) = true := by
        unfold terminal_only_last at htol ⊢
        simp only [List.dropLast_cons₂, List.all_cons, Bool.and_eq_true] at htol
        exact htol.2
      have hx : is_terminal x = false := by
        unfold terminal_only_last at htol
        simp only [List.dropLast_cons₂, List.all_cons, Bool.and_eq_true] at htol
        simpa using htol.1
      have hlast2 : (y :: ys).getLast? = some s := by
        rw [← hlast]; simp [List.getLast?_cons_cons]
      rw [List.all_cons, Bool.and_eq_true]
      exact ⟨by simp [hx], ih htol2 hlast2⟩

lemma tol_append_of_all (l m : List ExecState)
    (hall : l.all (fun x => !(is_terminal x)) = true) (hm : m ≠ []) :
    terminal_only_last (l ++ m) = terminal_only_last m := by
  unfold terminal_only_last
  rw [List.dropLast_append_of_ne_nil l hm, List.all_append, hall, Bool.true_and]

lemma getLast?_append_right (l m : List ExecState) (hm : m ≠ []) :
    (l ++ m).getLast? = m.getLast? := by
  rw [List.getLast?_append]
  cases hg : m.getLast? with
  | none => exact absurd (List.getLast?_eq_none_iff.mp hg) hm
  | some x => rfl

lemma state_writes_append (t u : List Ev) (eid : String) :
    state_writes (t ++ u) eid = state_writes t eid ++ state_writes u eid := by
  unfold state_writes
  exact List.filterMap_append t u _

/- ===================== Per-call invariant framework ===================== -/

/-- Facts holding at any point of a call's leg blocks, relating the
current record `r2`, store, and trace to the entry record `r0` and entry
store `store0`. -/
def CoreOk (aid : String) (store0 : List BTC15ExecutionRecord)
    (r0 : BTC15ExecutionRecord) (tr0 : List Ev) (r2 : BTC15ExecutionRecord)
    (store : List BTC15ExecutionRecord) (tr : List Ev) : Prop :=
  (∃ suffix, tr = tr0 ++ suffix) ∧
  storeGet store aid = some r2 ∧
  r2.execution_id = aid ∧
  r2.created_day = r0.created_day ∧
  r2.estimated_total_usdc = r0.estimated_total_usdc ∧
  (∀ eid, eid ≠ aid → storeGet store eid = storeGet store0 eid) ∧
  (∀ d, sum_estimated_usdc_for_day store d =
    sum_estimated_usdc_for_day store0 d) ∧
  (∀ e ∈ tr, ev_eid e = aid) ∧
  chain_stutter r0.state (state_writes tr aid) = true ∧
  terminal_only_last (state_writes tr aid) = true ∧
  ((state_writes tr aid).getLast? = some r2.state ∨
    (state_writes tr aid = [] ∧ r2 = r0))

/-- Invariant on a control-flow value: a fall-through carries a
non-terminal current record, an early return also fixes the success bit
against the final state. -/
def FlowOk (aid : String) (store0 : List BTC15ExecutionRecord)
    (r0 : BTC15ExecutionRecord) (tr0 : List Ev) : ExecFlow → Prop
  | .cont r store tr =>
    CoreOk aid store0 r0 tr0 r store tr ∧ is_terminal r.state = false
  | .ret s store tr =>
    ∃ r2, CoreOk aid store0 r0 tr0 r2 store tr ∧ (s = true ↔ r2.state = .DONE)

lemma FlowOk.andThen_ok {aid : String} {store0 : List BTC15ExecutionRecord}
    {r0 : BTC15ExecutionRecord} {tr0 : List Ev} {f : ExecFlow}
    {k : BTC15ExecutionRecord → List BTC15ExecutionRecord → List Ev → ExecFlow}
    (h : FlowOk aid store0 r0 tr0 f)
    (hk : ∀ r store tr, CoreOk aid store0 r0 tr0 r store tr →
      is_terminal r.state = false → FlowOk aid store0 r0 tr0 (k r store tr)) :
    FlowOk aid store0 r0 tr0 (f.andThen k) := by
  cases f with
  | ret s store tr => exact h
  | cont r store tr => exact hk r store tr h.1 h.2

/-- One persisted state write: upsert a record that keeps the execution
id, creation day and estimated notional, moving the state along a
(possibly stuttering) DAG edge. -/
lemma CoreOk.write_step {aid : String} {store0 : List BTC15ExecutionRecord}
    {r0 r2 : BTC15ExecutionRecord} {tr0 : List Ev}
    {store : List BTC15ExecutionRecord} {tr : List Ev}
    (h : CoreOk aid store0 r0 tr0 r2 store tr) (u : BTC15ExecutionRecord)
    (hid : u.execution_id = r2.execution_id)
    (hday : u.created_day = r2.created_day)
    (hest : u.estimated_total_usdc = r2.estimated_total_usdc)
    (hstep : step_eq r2.state u.state = true)
    (hterm : is_terminal r2.state = false) :
    CoreOk aid store0 r0 tr0 u (storeUpsert store u)
      (tr ++ [Ev.write aid u.state]) := by
  obtain ⟨⟨suf, hsuf⟩, hget, hidr, hdayr, hestr, hoth, hsum, htags, hchain,
    htol, hlast⟩ := h
  have huid : u.execution_id = aid := by rw [hid, hidr]
  have hws : state_writes (tr ++ [Ev.write aid u.state]) aid =
      state_writes tr aid ++ [u.state] := by
    rw [state_writes_append]
    simp [state_writes]
  have hlaststate : last_state r0.state (state_writes tr aid) = r2.state := by
    rcases hlast with hl | ⟨hl, hr⟩
    · simp [last_state, hl]
    · simp [last_state, hl, hr]
  refine ⟨⟨suf ++ [Ev.write aid u.state], by rw [hsuf, List.append_assoc]⟩,
    ?_, huid, ?_, ?_, ?_, ?_, ?_, ?_, ?_, ?_⟩
  · rw [← huid]; exact storeGet_storeUpsert_self store u
  · rw [hday, hdayr]
  · rw [hest, hestr]
  · intro eid hne
    rw [storeGet_storeUpsert_other store u eid (by rw [huid]; exact Ne.symm hne)]
    exact hoth eid hne
  · intro d
    rw [sum_day_storeUpsert store r2 u d (by rw [huid]; exact hget)
      hday.symm hest.symm]
    exact hsum d
  · intro e he
    rcases List.mem_append.mp he with h1 | h1
    · exact htags e h1
    · simp only [List.mem_singleton] at h1
      subst h1; rfl
  · rw [hws, chain_stutter_append, hlaststate]
    simp [hchain, chain_stutter, hstep]
  · rw [hws]
    rcases hlast with hl | ⟨hl, hr⟩
    · have hall := all_nonterminal_of_tol _ _ htol hl hterm
      rw [tol_append_of_all _ _ hall (by simp)]
      simp [terminal_only_last]
    · rw [hl]
      simp [terminal_only_last]
  · left
    rw [hws, getLast?_append_right _ _ (by simp)]
    simp

/-- Emitting a non-write event only extends the trace. -/
lemma CoreOk.emit {aid : String} {store0 : List BTC15ExecutionRecord}
    {r0 r2 : BTC15ExecutionRecord} {tr0 : List Ev}
    {store : List BTC15ExecutionRecord} {tr : List Ev}
    (h : CoreOk aid store0 r0 tr0 r2 store tr) (e : Ev)
    (he : ev_eid e = aid) (hnw : state_writes [e] aid = []) :
    CoreOk aid store0 r0 tr0 r2 store (tr ++ [e]) := by
  obtain ⟨⟨suf, hsuf⟩, hget, hidr, hdayr, hestr, hoth, hsum, htags, hchain,
    htol, hlast⟩ := h
  have hws : state_writes (tr ++ [e]) aid = state_writes tr aid := by
    rw [state_writes_append, hnw, List.append_nil]
  refine ⟨⟨suf ++ [e], by rw [hsuf, List.append_assoc]⟩,
    hget, hidr, hdayr, hestr, hoth, hsum, ?_, ?_, ?_, ?_⟩
  · intro x hx
    rcases List.mem_append.mp hx with h1 | h1
    · exact htags x h1
    · simp only [List.mem_singleton] at h1
      subst h1; exact he
  · rw [hws]; exact hchain
  · rw [hws]; exact htol
  · rw [hws]; exact hlast

lemma leg_a_fresh_ok (env : CallEnv) (a : CallArgs)
    (store0 : List BTC15ExecutionRecord) (r0 : BTC15ExecutionRecord)
    (tr0 : List Ev) :
    ∀ r store tr, CoreOk a.execution_id store0 r0 tr0 r store tr →
      is_terminal r.state = false →
      FlowOk a.execution_id store0 r0 tr0 (leg_a_fresh env a r store tr) := by
  intro r store tr h hterm
  by_cases hst : r.state = .PLANNED
  · unfold leg_a_fresh
    rw [if_pos hst]
    have h1 := h.write_step { r with state := .LEG_A_PLACED } rfl rfl rfl
      (by rw [hst]; rfl) hterm
    have h2 := h1.emit (Ev.placeA a.execution_id env.leg_a.ext_id) rfl rfl
    cases hk : env.leg_a.id_kind with
    | job =>
      have h3 := h2.write_step
        { r with state := .LEG_A_PLACED, leg_a_job_id := some env.leg_a.ext_id }
        rfl rfl rfl rfl rfl
      have h4 := h3.emit (Ev.confirmA a.execution_id env.leg_a.ext_id) rfl rfl
      have h5 := h4.write_step
        { r with state := .LEG_A_PLACED, leg_a_job_id := some env.leg_a.ext_id }
        rfl rfl rfl rfl rfl
      cases hca : env.leg_a.confirm_filled with
      | true =>
        have h6 := h5.write_step
          { r with state := .LEG_A_FILLED, leg_a_job_id := some env.leg_a.ext_id }
          rfl rfl rfl rfl rfl
        exact ⟨h6, rfl⟩
      | false =>
        have h6 := h5.write_step
          { r with state := .ABORTED, leg_a_job_id := some env.leg_a.ext_id }
          rfl rfl rfl rfl rfl
        exact ⟨_, h6, by simp⟩
    | order =>
      have h3 := h2.write_step
        { r with state := .LEG_A_PLACED, leg_a_order_id := some env.leg_a.ext_id }
        rfl rfl rfl rfl rfl
      have h4 := h3.emit (Ev.confirmA a.execution_id env.leg_a.ext_id) rfl rfl
      have h5 := h4.write_step
        { r with state := .LEG_A_PLACED, leg_a_order_id := some env.leg_a.ext_id }
        rfl rfl rfl rfl rfl
      cases hca : env.leg_a.confirm_filled with
      | true =>
        have h6 := h5.write_step
          { r with state := .LEG_A_FILLED, leg_a_order_id := some env.leg_a.ext_id }
          rfl rfl rfl rfl rfl
        exact ⟨h6, rfl⟩
      | false =>
        have h6 := h5.write_step
          { r with state := .ABORTED, leg_a_order_id := some env.leg_a.ext_id }
          rfl rfl rfl rfl rfl
        exact ⟨_, h6, by simp⟩
  · unfold leg_a_fresh
    rw [if_neg hst]
    exact ⟨h, hterm⟩

lemma leg_a_resume_ok (env : CallEnv) (a : CallArgs)
    (store0 : List BTC15ExecutionRecord) (r0 : BTC15ExecutionRecord)
    (tr0 : List Ev) :
    ∀ r store tr, CoreOk a.execution_id store0 r0 tr0 r store tr →
      is_terminal r.state = false →
      FlowOk a.execution_id store0 r0 tr0 (leg_a_resume env a r store tr) := by
  intro r store tr h hterm
  by_cases hst : r.state = .LEG_A_PLACED
  · unfold leg_a_resume
    rw [if_pos hst]
    have h1 := h.emit (Ev.confirmA a.execution_id (stored_ext_a r)) rfl rfl
    cases hra : env.resume_confirm_a with
    | true =>
      have h2 := h1.write_step { r with state := .LEG_A_FILLED }
        rfl rfl rfl (by rw [hst]; rfl) hterm
      exact ⟨h2, rfl⟩
    | false =>
      have h2 := h1.write_step { r with state := .ABORTED }
        rfl rfl rfl (by rw [hst]; rfl) hterm
      exact ⟨_, h2, by simp⟩
  · unfold leg_a_resume
    rw [if_neg hst]
    exact ⟨h, hterm⟩

lemma leg_b_fresh_ok (env : CallEnv) (a : CallArgs)
    (store0 : List BTC15ExecutionRecord) (r0 : BTC15ExecutionRecord)
    (tr0 : List Ev) :
    ∀ r store tr, CoreOk a.execution_id store0 r0 tr0 r store tr →
      is_terminal r.state = false →
      FlowOk a.execution_id store0 r0 tr0 (leg_b_fresh env a r store tr) := by
  intro r store tr h hterm
  by_cases hst : r.state = .LEG_A_FILLED
  · unfold leg_b_fresh
    rw [if_pos hst]
    cases hut : env.unhedged_timeout with
    | true =>
      have h1 := h.write_step { r with state := .ABORTED }
        rfl rfl rfl (by rw [hst]; rfl) hterm
      exact ⟨_, h1, by simp⟩
    | false =>
      have h1 := h.write_step { r with state := .LEG_B_PLACED }
        rfl rfl rfl (by rw [hst]; rfl) hterm
      have h2 := h1.emit (Ev.placeB a.execution_id env.leg_b.ext_id) rfl rfl
      cases hk : env.leg_b.id_kind with
      | job =>
        have h3 := h2.write_step
          { r with state := .LEG_B_PLACED, leg_b_job_id := some env.leg_b.ext_id }
          rfl rfl rfl rfl rfl
        have h4 := h3.emit (Ev.confirmB a.execution_id env.leg_b.ext_id) rfl rfl
        have h5 := h4.write_step
          { r with state := .LEG_B_PLACED, leg_b_job_id := some env.leg_b.ext_id }
          rfl rfl rfl rfl rfl
        cases hcb : env.leg_b.confirm_filled with
        | true =>
          have h6 := h5.write_step
            { r with state := .HEDGED_FILLED, leg_b_job_id := some env.leg_b.ext_id }
            rfl rfl rfl rfl rfl
          exact ⟨h6, rfl⟩
        | false =>
          have h6 := h5.write_step
            { r with state := .ABORTED, leg_b_job_id := some env.leg_b.ext_id }
            rfl rfl rfl rfl rfl
          exact ⟨_, h6, by simp⟩
      | order =>
        have h3 := h2.write_step
          { r with state := .LEG_B_PLACED, leg_b_order_id := some env.leg_b.ext_id }
          rfl rfl rfl rfl rfl
        have h4 := h3.emit (Ev.confirmB a.execution_id env.leg_b.ext_id) rfl rfl
        have h5 := h4.write_step
          { r with state := .LEG_B_PLACED, leg_b_order_id := some env.leg_b.ext_id }
          rfl rfl rfl rfl rfl
        cases hcb : env.leg_b.confirm_filled with
        | true =>
          have h6 := h5.write_step
            { r with state := .HEDGED_FILLED, leg_b_order_id := some env.leg_b.ext_id }
            rfl rfl rfl rfl rfl
          exact ⟨h6, rfl⟩
        | false =>
          have h6 := h5.write_step
            { r with state := .ABORTED, leg_b_order_id := some env.leg_b.ext_id }
            rfl rfl rfl rfl rfl
          exact ⟨_, h6, by simp⟩
  · unfold leg_b_fresh
    rw [if_neg hst]
    exact ⟨h, hterm⟩

lemma leg_b_resume_ok (env : CallEnv) (a : CallArgs)
    (store0 : List BTC15ExecutionRecord) (r0 : BTC15ExecutionRecord)
    (tr0 : List Ev) :
    ∀ r store tr, CoreOk a.execution_id store0 r0 tr0 r store tr →
      is_terminal r.state = false →
      FlowOk a.execution_id store0 r0 tr0 (leg_b_resume env a r store tr) := by
  intro r store tr h hterm
  by_cases hst : r.state = .LEG_B_PLACED
  · unfold leg_b_resume
    rw [if_pos hst]
    have h1 := h.emit (Ev.confirmB a.execution_id (stored_ext_b r)) rfl rfl
    cases hrb : env.resume_confirm_b with
    | true =>
      have h2 := h1.write_step { r with state := .HEDGED_FILLED }
        rfl rfl rfl (by rw [hst]; rfl) hterm
      exact ⟨h2, rfl⟩
    | false =>
      have h2 := h1.write_step { r with state := .ABORTED }
        rfl rfl rfl (by rw [hst]; rfl) hterm
      exact ⟨_, h2, by simp⟩
  · unfold leg_b_resume
    rw [if_neg hst]
    exact ⟨h, hterm⟩

lemma finish_block_ok (a : CallArgs)
    (store0 : List BTC15ExecutionRecord) (r0 : BTC15ExecutionRecord)
    (tr0 : List Ev) :
    ∀ r store tr, CoreOk a.execution_id store0 r0 tr0 r store tr →
      is_terminal r.state = false →
      FlowOk a.execution_id store0 r0 tr0 (finish_block a r store tr) := by
  intro r store tr h hterm
  by_cases hst : r.state = .HEDGED_FILLED
  · unfold finish_block
    rw [if_pos hst]
    have h1 := h.write_step { r with state := .DONE }
      rfl rfl rfl (by rw [hst]; rfl) hterm
    exact ⟨_, h1, by simp⟩
  · unfold finish_block
    rw [if_neg hst]
    refine ⟨r, h, ?_⟩
    constructor
    · intro hcontra; exact absurd hcontra (by simp)
    · intro hdone
      rw [hdone] at hterm
      simp [is_terminal] at hterm

/-- All five blocks preserve the invariant. -/
lemma run_phases_ok (env : CallEnv) (a : CallArgs)
    (store0 : List BTC15ExecutionRecord) (r0 : BTC15ExecutionRecord)
    (tr0 : List Ev) (r : BTC15ExecutionRecord)
    (store : List BTC15ExecutionRecord) (tr : List Ev)
    (h : CoreOk a.execution_id store0 r0 tr0 r store tr)
    (hterm : is_terminal r.state = false) :
    FlowOk a.execution_id store0 r0 tr0 (run_phases env a r store tr) := by
  unfold run_phases
  exact ((((leg_a_fresh_ok env a store0 r0 tr0 r store tr h hterm).andThen_ok
    (leg_a_resume_ok env a store0 r0 tr0)).andThen_ok
    (leg_b_fresh_ok env a store0 r0 tr0)).andThen_ok
    (leg_b_resume_ok env a store0 r0 tr0)).andThen_ok
    (finish_block_ok a store0 r0 tr0)

/- ===================== Per-call characterization ===================== -/

lemma is_terminal_false_iff (s : ExecState) :
    is_terminal s = false ↔ ¬(s = .DONE ∨ s = .ABORTED) := by
  cases s <;> simp [is_terminal]

lemma execute_gates_fail (cfg : ExecutionConfig)
    (store : List BTC15ExecutionRecord) (env : CallEnv) (a : CallArgs)
    (h : ¬ risk_gates_pass cfg store a) :
    execute_bracket cfg store env a =
      { success := false, store := store, trace := [] } := by
  unfold execute_bracket
  by_cases h1 : cfg.dry_run = false ∧ cfg.trading_enabled = false
  · rw [if_pos h1]
  · rw [if_neg h1]
    by_cases h2 : cfg.max_estimated_usdc_per_bracket ≠ 0 ∧
        a.estimated_total_usdc > cfg.max_estimated_usdc_per_bracket
    · rw [if_pos h2]
    · rw [if_neg h2]
      by_cases h3 : cfg.daily_estimated_usdc_cap ≠ 0 ∧
          sum_estimated_usdc_for_day store a.today + a.estimated_total_usdc >
            cfg.daily_estimated_usdc_cap
      · rw [if_pos h3]
      · rw [if_neg h3]
        by_cases h4 : cfg.max_open_brackets ≤ count_open store
        · rw [if_pos h4]
        · exact absurd ⟨h1, h2, h3, lt_of_not_le h4⟩ h

lemma execute_gates_pass (cfg : ExecutionConfig)
    (store : List BTC15ExecutionRecord) (env : CallEnv) (a : CallArgs)
    (h : risk_gates_pass cfg store a) :
    execute_bracket cfg store env a =
      (match storeGet store a.execution_id with
       | some r =>
         if r.state = .DONE ∨ r.state = .ABORTED then
           { success := decide (r.state = .DONE), store := store, trace := [] }
         else (run_phases env a r store []).toResult
       | none =>
         (run_phases env a (new_record a)
           (storeUpsert store (new_record a))
           [Ev.write a.execution_id .PLANNED]).toResult) := by
  obtain ⟨h1, h2, h3, h4⟩ := h
  unfold execute_bracket
  rw [if_neg h1, if_neg h2, if_neg h3, if_neg (not_le_of_lt h4)]

lemma core_init_existing (a : CallArgs)
    (store : List BTC15ExecutionRecord) (r : BTC15ExecutionRecord)
    (hget : storeGet store a.execution_id = some r) :
    CoreOk a.execution_id store r [] r store [] := by
  refine ⟨⟨[], rfl⟩, hget, storeGet_id store a.execution_id r hget,
    rfl, rfl, fun _ _ => rfl, fun _ => rfl, ?_, rfl, rfl, Or.inr ⟨rfl, rfl⟩⟩
  intro e he
  simp at he

lemma core_init_fresh (a : CallArgs) (store : List BTC15ExecutionRecord) :
    CoreOk a.execution_id (storeUpsert store (new_record a)) (new_record a)
      [Ev.write a.execution_id .PLANNED] (new_record a)
      (storeUpsert store (new_record a))
      [Ev.write a.execution_id .PLANNED] := by
  refine ⟨⟨[], (List.append_nil _).symm⟩, ?_, rfl, rfl, rfl, fun _ _ => rfl,
    fun _ => rfl, ?_, ?_, ?_, ?_⟩
  · exact storeGet_storeUpsert_self store (new_record a)
  · intro e he
    simp only [List.mem_singleton] at he
    subst he; rfl
  · simp [state_writes, chain_stutter, step_eq, new_record]
  · simp [state_writes, terminal_only_last]
  · left
    simp [state_writes, new_record]

/-- The success bit of a finished call equals "the persisted record is in
DONE". -/
lemma toResult_success_iff {aid : String} {store0 : List BTC15ExecutionRecord}
    {r0 : BTC15ExecutionRecord} {tr0 : List Ev} {f : ExecFlow}
    (h : FlowOk aid store0 r0 tr0 f) :
    (f.toResult.success = true ↔
      (storeGet f.toResult.store aid).map (fun r => r.state) = some .DONE) := by
  cases f with
  | ret s store tr =>
    obtain ⟨r2, hcore, hiff⟩ := h
    simp only [ExecFlow.toResult, hcore.2.1]
    rw [hiff]
    simp
  | cont r store tr =>
    obtain ⟨hcore, hterm⟩ := h
    simp only [ExecFlow.toResult, hcore.2.1]
    constructor
    · intro hc; cases hc
    · intro hc
      have hc2 : r.state = ExecState.DONE := by simpa using hc
      exact absurd (Or.inl hc2) ((is_terminal_false_iff r.state).mp hterm)

/- ===================== Claim C1 ===================== -/

/-- C1 (amended, part of): when the risk gates pass, a call returns
success exactly when the persisted record for its execution id ends in
DONE. -/
theorem C1_success_iff_done (cfg : ExecutionConfig)
    (store : List BTC15ExecutionRecord) (env : CallEnv) (a : CallArgs)
    (h : risk_gates_pass cfg store a) :
    ((execute_bracket cfg store env a).success = true ↔
      (storeGet (execute_bracket cfg store env a).store a.execution_id).map
        (fun r => r.state) = some ExecState.DONE) := by
  rw [execute_gates_pass cfg store env a h]
  cases hget : storeGet store a.execution_id with
  | none =>
    exact toResult_success_iff
      (run_phases_ok env a (storeUpsert store (new_record a)) (new_record a)
        [Ev.write a.execution_id .PLANNED] (new_record a)
        (storeUpsert store (new_record a)) [Ev.write a.execution_id .PLANNED]
        (core_init_fresh a store) rfl)
  | some r =>
    by_cases hterm2 : r.state = .DONE ∨ r.state = .ABORTED
    · dsimp only
      rw [if_pos hterm2]
      simp [hget]
    · have hterm : is_terminal r.state = false :=
        (is_terminal_false_iff r.state).mpr hterm2
      dsimp only
      rw [if_neg hterm2]
      exact toResult_success_iff
        (run_phases_ok env a store r [] r store []
          (core_init_existing a store r hget) hterm)

def cex1_cfg : ExecutionConfig :=
  { max_open_brackets := 2
    max_estimated_usdc_per_bracket := 0
    daily_estimated_usdc_cap := 0
    trading_enabled := false
    dry_run := false }

def cex1_rec : BTC15ExecutionRecord :=
  { execution_id := "e"
    slug := "btc-updown-15m-900"
    up_token_id := "u"
    down_token_id := "d"
    target_shares := 10
    state := .DONE
    created_day := "2026-10-12"
    leg_a_job_id := some "j1"
    leg_b_job_id := some "j2"
    leg_a_order_id := none
    leg_b_order_id := none
    estimated_total_usdc := 10 }

def cex1_env : CallEnv :=
  { leg_a := { id_kind := .job, ext_id := "x1", confirm_filled := true }
    leg_b := { id_kind := .job, ext_id := "x2", confirm_filled := true }
    resume_confirm_a := true
    resume_confirm_b := true
    unhedged_timeout := false }

def cex1_args : CallArgs :=
  { execution_id := "e"
    slug := "btc-updown-15m-900"
    up_token_id := "u"
    down_token_id := "d"
    target_shares := 10
    up_price_limit := 1/2
    down_price_limit := 1/2
    estimated_total_usdc := 10
    today := "2026-10-12" }

/-- C1 counterexample: the risk gates run **before** the idempotent
terminal check, so re-calling `execute_bracket` for a record already
persisted as DONE under an engaged kill switch (`dry_run = false`,
`trading_enabled = false`) returns failure although the record is (and
stays) DONE — contradicting "returns success ... regardless of the current
risk-gate conditions". -/
theorem C1_counterexample :
    storeGet [cex1_rec] "e" = some cex1_rec ∧
    cex1_rec.state = ExecState.DONE ∧
    (execute_bracket cex1_cfg [cex1_rec] cex1_env cex1_args).success = false ∧
    (storeGet (execute_bracket cex1_cfg [cex1_rec] cex1_env
        cex1_args).store "e").map (fun r => r.state) =
      some ExecState.DONE := by
  refine ⟨?_, ?_, ?_, ?_⟩ <;> with_unfolding_all decide

def w1_cfg : ExecutionConfig :=
  { max_open_brackets := 2
    max_estimated_usdc_per_bracket := 0
    daily_estimated_usdc_cap := 0
    trading_enabled := false
    dry_run := true }

theorem C1_witness :
    risk_gates_pass w1_cfg [cex1_rec] cex1_args ∧
    ((execute_bracket w1_cfg [cex1_rec] cex1_env cex1_args).success = true ↔
      (storeGet (execute_bracket w1_cfg [cex1_rec] cex1_env
          cex1_args).store "e").map (fun r => r.state) =
        some ExecState.DONE) :=
  ⟨by with_unfolding_all decide,
    C1_success_iff_done w1_cfg [cex1_rec] cex1_env cex1_args
      (by with_unfolding_all decide)⟩

/- ===================== CoreOk projections and result facts ============== -/

lemma CoreOk.get_self {aid : String} {store0 : List BTC15ExecutionRecord}
    {r0 : BTC15ExecutionRecord} {tr0 : List Ev} {r2 : BTC15ExecutionRecord}
    {store : List BTC15ExecutionRecord} {tr : List Ev}
    (h : CoreOk aid store0 r0 tr0 r2 store tr) :
    storeGet store aid = some r2 := h.2.1

lemma CoreOk.others {aid : String} {store0 : List BTC15ExecutionRecord}
    {r0 : BTC15ExecutionRecord} {tr0 : List Ev} {r2 : BTC15ExecutionRecord}
    {store : List BTC15ExecutionRecord} {tr : List Ev}
    (h : CoreOk aid store0 r0 tr0 r2 store tr) :
    ∀ eid, eid ≠ aid → storeGet store eid = storeGet store0 eid :=
  h.2.2.2.2.2.1

lemma CoreOk.sums {aid : String} {store0 : List BTC15ExecutionRecord}
    {r0 : BTC15ExecutionRecord} {tr0 : List Ev} {r2 : BTC15ExecutionRecord}
    {store : List BTC15ExecutionRecord} {tr : List Ev}
    (h : CoreOk aid store0 r0 tr0 r2 store tr) :
    ∀ d, sum_estimated_usdc_for_day store d =
      sum_estimated_usdc_for_day store0 d := h.2.2.2.2.2.2.1

lemma CoreOk.tags {aid : String} {store0 : List BTC15ExecutionRecord}
    {r0 : BTC15ExecutionRecord} {tr0 : List Ev} {r2 : BTC15ExecutionRecord}
    {store : List BTC15ExecutionRecord} {tr : List Ev}
    (h : CoreOk aid store0 r0 tr0 r2 store tr) :
    ∀ e ∈ tr, ev_eid e = aid := h.2.2.2.2.2.2.2.1

lemma CoreOk.chain {aid : String} {store0 : List BTC15ExecutionRecord}
    {r0 : BTC15ExecutionRecord} {tr0 : List Ev} {r2 : BTC15ExecutionRecord}
    {store : List BTC15ExecutionRecord} {tr : List Ev}
    (h : CoreOk aid store0 r0 tr0 r2 store tr) :
    chain_stutter r0.state (state_writes tr aid) = true :=
  h.2.2.2.2.2.2.2.2.1

lemma CoreOk.tolw {aid : String} {store0 : List BTC15ExecutionRecord}
    {r0 : BTC15ExecutionRecord} {tr0 : List Ev} {r2 : BTC15ExecutionRecord}
    {store : List BTC15ExecutionRecord} {tr : List Ev}
    (h : CoreOk aid store0 r0 tr0 r2 store tr) :
    terminal_only_last (state_writes tr aid) = true :=
  h.2.2.2.2.2.2.2.2.2.1

lemma CoreOk.lastw {aid : String} {store0 : List BTC15ExecutionRecord}
    {r0 : BTC15ExecutionRecord} {tr0 : List Ev} {r2 : BTC15ExecutionRecord}
    {store : List BTC15ExecutionRecord} {tr : List Ev}
    (h : CoreOk aid store0 r0 tr0 r2 store tr) :
    (state_writes tr aid).getLast? = some r2.state ∨
      (state_writes tr aid = [] ∧ r2 = r0) :=
  h.2.2.2.2.2.2.2.2.2.2

/-- Extract the facts of a finished flow uniformly, whether it returned
early or fell through. -/
lemma toResult_core {aid : String} {store0 : List BTC15ExecutionRecord}
    {r0 : BTC15ExecutionRecord} {tr0 : List Ev} {f : ExecFlow}
    (h : FlowOk aid store0 r0 tr0 f) :
    ∃ r2, CoreOk aid store0 r0 tr0 r2 f.toResult.store f.toResult.trace := by
  cases f with
  | ret s store tr =>
    obtain ⟨r2, hcore, _⟩ := h
    exact ⟨r2, hcore⟩
  | cont r store tr =>
    exact ⟨r, h.1⟩

lemma state_writes_nil_of_tags (t : List Ev) (aid eid : String)
    (htags : ∀ e ∈ t, ev_eid e = aid) (hne : eid ≠ aid) :
    state_writes t eid = [] := by
  induction t with
  | nil => rfl
  | cons e rest ih =>
    have he := htags e (List.mem_cons_self e rest)
    have hrest := ih (fun x hx => htags x (List.mem_cons_of_mem e hx))
    cases e with
    | write e2 st =>
      have : e2 ≠ eid := by
        simp only [ev_eid] at he
        rw [he]; exact fun hh => hne hh.symm
      simp [state_writes, this] at hrest ⊢
      exact hrest
    | placeA e2 x => simpa [state_writes] using hrest
    | placeB e2 x => simpa [state_writes] using hrest
    | confirmA e2 x => simpa [state_writes] using hrest
    | confirmB e2 x => simpa [state_writes] using hrest

/- ===================== Claim C5 ===================== -/

lemma C5_step (cfg : ExecutionConfig) (store : List BTC15ExecutionRecord)
    (env : CallEnv) (a : CallArgs)
    (hcap : 0 < cfg.daily_estimated_usdc_cap)
    (hinv : ∀ d, sum_estimated_usdc_for_day store d ≤
      cfg.daily_estimated_usdc_cap) :
    ∀ d, sum_estimated_usdc_for_day
        (execute_bracket cfg store env a).store d ≤
      cfg.daily_estimated_usdc_cap := by
  intro d
  by_cases hg : risk_gates_pass cfg store a
  · rw [execute_gates_pass cfg store env a hg]
    cases hget : storeGet store a.execution_id with
    | none =>
      dsimp only
      obtain ⟨r2, hcore⟩ := toResult_core
        (run_phases_ok env a (storeUpsert store (new_record a)) (new_record a)
          [Ev.write a.execution_id .PLANNED] (new_record a)
          (storeUpsert store (new_record a)) [Ev.write a.execution_id .PLANNED]
          (core_init_fresh a store) rfl)
      rw [hcore.sums d]
      have habs : storeGet store (new_record a).execution_id = none := hget
      rw [storeUpsert_of_absent store (new_record a) habs, sum_day_append]
      have hone : sum_estimated_usdc_for_day [new_record a] d =
          (if a.today = d then a.estimated_total_usdc else 0) := by
        rw [sum_day_cons]
        unfold sum_estimated_usdc_for_day new_record
        simp
      rw [hone]
      by_cases hday : a.today = d
      · rw [if_pos hday]
        have h3 := hg.2.2.1
        have hne : cfg.daily_estimated_usdc_cap ≠ 0 := ne_of_gt hcap
        by_contra hcon
        push_neg at hcon
        apply h3
        refine ⟨hne, ?_⟩
        rw [hday]
        linarith
      · rw [if_neg hday]
        simpa using hinv d
    | some r =>
      by_cases hterm2 : r.state = .DONE ∨ r.state = .ABORTED
      · dsimp only
        rw [if_pos hterm2]
        exact hinv d
      · have hterm : is_terminal r.state = false :=
          (is_terminal_false_iff r.state).mpr hterm2
        dsimp only
        rw [if_neg hterm2]
        obtain ⟨r2, hcore⟩ := toResult_core
          (run_phases_ok env a store r [] r store []
            (core_init_existing a store r hget) hterm)
        rw [hcore.sums d]
        exact hinv d
  · rw [execute_gates_fail cfg store env a hg]
    exact hinv d

lemma C5_aux (cfg : ExecutionConfig) (hcap : 0 < cfg.daily_estimated_usdc_cap) :
    ∀ (calls : List (CallEnv × CallArgs)) (store : List BTC15ExecutionRecord)
      (tr : List Ev),
      (∀ d, sum_estimated_usdc_for_day store d ≤
        cfg.daily_estimated_usdc_cap) →
      ∀ d, sum_estimated_usdc_for_day
          (run_calls cfg (store, tr) calls).1 d ≤
        cfg.daily_estimated_usdc_cap := by
  intro calls
  induction calls with
  | nil => intro store tr hinv d; exact hinv d
  | cons c rest ih =>
    intro store tr hinv d
    unfold run_calls
    exact ih _ _ (C5_step cfg store c.1 c.2 hcap hinv) d

/-- C5: with a strictly positive daily cap, after any sequence of calls
(each with non-negative estimated notional) starting from an empty store,
the summed estimated notional of the records created on any UTC day never
exceeds the cap; a call that would push a day over the cap is rejected at
the gate before any record is created. -/
theorem C5_daily_cap_conserved (cfg : ExecutionConfig)
    (calls : List (CallEnv × CallArgs))
    (hcap : 0 < cfg.daily_estimated_usdc_cap)
    (hnn : ∀ c ∈ calls, 0 ≤ (Prod.snd c).estimated_total_usdc) (d : String) :
    sum_estimated_usdc_for_day (run_calls cfg ([], []) calls).1 d ≤
      cfg.daily_estimated_usdc_cap := by
  refine C5_aux cfg hcap calls [] [] (fun d2 => ?_) d
  unfold sum_estimated_usdc_for_day
  simp
  exact le_of_lt hcap

/- ===================== Claim C4 ===================== -/

/-- Relation between the store and the accumulated state-write sequence of
one execution id. -/
def TraceInv (eid : String) (store : List BTC15ExecutionRecord)
    (ws : List ExecState) : Prop :=
  (storeGet store eid = none ∧ ws = []) ∨
  (∃ r, storeGet store eid = some r ∧ ws ≠ [] ∧
    ws.head? = some .PLANNED ∧
    chain_stutter .PLANNED ws = true ∧
    ws.getLast? = some r.state ∧
    terminal_only_last ws = true)

lemma getLast?_ne_nil {l : List ExecState} {x : ExecState}
    (h : l.getLast? = some x) : l ≠ [] := by
  intro hnil
  rw [hnil] at h
  simp at h

lemma TraceInv_extend (eid : String) (store : List BTC15ExecutionRecord)
    (ws : List ExecState) (r r2 : BTC15ExecutionRecord)
    (store2 : List BTC15ExecutionRecord) (cw : List ExecState)
    (hinv : TraceInv eid store ws)
    (hget : storeGet store eid = some r)
    (hterm : is_terminal r.state = false)
    (hget2 : storeGet store2 eid = some r2)
    (hchain : chain_stutter r.state cw = true)
    (htol : terminal_only_last cw = true)
    (hlast : cw.getLast? = some r2.state ∨ (cw = [] ∧ r2 = r)) :
    TraceInv eid store2 (ws ++ cw) := by
  rcases hinv with ⟨hnone, _⟩ | ⟨rinv, hginv, hne, hhead, hchain0, hlast0, htol0⟩
  · rw [hget] at hnone; cases hnone
  · rw [hget] at hginv
    injection hginv with hrr
    subst hrr
    rcases hlast with hl | ⟨hl, hr⟩
    · have hcwne : cw ≠ [] := getLast?_ne_nil hl
      refine Or.inr ⟨r2, hget2, by simp [hne], ?_, ?_, ?_, ?_⟩
      · rw [List.head?_append]
        cases hw : ws with
        | nil => exact absurd hw hne
        | cons x xs =>
          rw [hw] at hhead
          simp [hhead]
      · rw [chain_stutter_append]
        have hls : last_state .PLANNED ws = r.state := by
          unfold last_state
          rw [hlast0]
          rfl
        rw [hls, hchain0, hchain]
        rfl
      · rw [getLast?_append_right ws cw hcwne]
        exact hl
      · have hall := all_nonterminal_of_tol ws r.state htol0 hlast0 hterm
        rw [tol_append_of_all ws cw hall hcwne]
        exact htol
    · subst hr
      rw [hl, List.append_nil]
      exact Or.inr ⟨r2, hget2, hne, hhead, hchain0, hlast0, htol0⟩

lemma TraceInv_congr (eid : String)
    (store store2 : List BTC15ExecutionRecord) (ws : List ExecState)
    (h : storeGet store2 eid = storeGet store eid)
    (hinv : TraceInv eid store ws) : TraceInv eid store2 ws := by
  unfold TraceInv at hinv ⊢
  rw [h]
  exact hinv

lemma C4_step (cfg : ExecutionConfig) (store : List BTC15ExecutionRecord)
    (env : CallEnv) (a : CallArgs) (eid : String) (ws : List ExecState)
    (hinv : TraceInv eid store ws) :
    TraceInv eid (execute_bracket cfg store env a).store
      (ws ++ state_writes (execute_bracket cfg store env a).trace eid) := by
  by_cases hg : risk_gates_pass cfg store a
  · by_cases heid : a.execution_id = eid
    · subst heid
      rw [execute_gates_pass cfg store env a hg]
      cases hget : storeGet store a.execution_id with
      | none =>
        dsimp only
        rcases hinv with ⟨hnone, hws⟩ | ⟨rinv, hginv, _⟩
        · subst hws
          obtain ⟨r2, hcore⟩ := toResult_core
            (run_phases_ok env a (storeUpsert store (new_record a))
              (new_record a) [Ev.write a.execution_id .PLANNED] (new_record a)
              (storeUpsert store (new_record a))
              [Ev.write a.execution_id .PLANNED] (core_init_fresh a store) rfl)
          obtain ⟨suf, hsuf⟩ := hcore.1
          have hcw : state_writes
              (run_phases env a (new_record a) (storeUpsert store (new_record a))
                [Ev.write a.execution_id .PLANNED]).toResult.trace
              a.execution_id =
              .PLANNED :: state_writes suf a.execution_id := by
            rw [hsuf, state_writes_append]
            simp [state_writes]
          have hcwne : (state_writes
              (run_phases env a (new_record a) (storeUpsert store (new_record a))
                [Ev.write a.execution_id .PLANNED]).toResult.trace
              a.execution_id) ≠ [] := by
            rw [hcw]; simp
          rcases hcore.lastw with hl | ⟨hl, _⟩
          · refine Or.inr ⟨r2, hcore.get_self, by simpa using hcwne, ?_, ?_,
              by simpa using hl, by simpa using hcore.tolw⟩
            · rw [List.nil_append, hcw]
              rfl
            · rw [List.nil_append]
              have := hcore.chain
              simpa [new_record] using this
          · exact absurd hl hcwne
        · rw [hget] at hginv; cases hginv
      | some r =>
        by_cases hterm2 : r.state = .DONE ∨ r.state = .ABORTED
        · dsimp only
          rw [if_pos hterm2]
          simpa [state_writes] using hinv
        · have hterm : is_terminal r.state = false :=
            (is_terminal_false_iff r.state).mpr hterm2
          dsimp only
          rw [if_neg hterm2]
          obtain ⟨r2, hcore⟩ := toResult_core
            (run_phases_ok env a store r [] r store []
              (core_init_existing a store r hget) hterm)
          exact TraceInv_extend a.execution_id store ws r r2 _ _ hinv hget hterm
            hcore.get_self hcore.chain hcore.tolw hcore.lastw
    · have hflow : ∀ (st0 : List BTC15ExecutionRecord)
          (r0 : BTC15ExecutionRecord) (tr0 : List Ev) (f : ExecFlow),
          FlowOk a.execution_id st0 r0 tr0 f →
          storeGet f.toResult.store eid = storeGet st0 eid ∧
          state_writes f.toResult.trace eid = [] := by
        intro st0 r0 tr0 f hf
        obtain ⟨r2, hcore⟩ := toResult_core hf
        exact ⟨hcore.others eid (fun hh => heid hh.symm),
          state_writes_nil_of_tags _ _ _ hcore.tags
            (fun hh => heid hh.symm)⟩
      rw [execute_gates_pass cfg store env a hg]
      cases hget : storeGet store a.execution_id with
      | none =>
        dsimp only
        obtain ⟨hst, htr⟩ := hflow _ _ _ _
          (run_phases_ok env a (storeUpsert store (new_record a))
            (new_record a) [Ev.write a.execution_id .PLANNED] (new_record a)
            (storeUpsert store (new_record a))
            [Ev.write a.execution_id .PLANNED] (core_init_fresh a store) rfl)
        rw [htr, List.append_nil]
        exact TraceInv_congr eid store _ ws
          (hst.trans (storeGet_storeUpsert_other store (new_record a) eid
            (fun hh => heid hh))) hinv
      | some r =>
        by_cases hterm2 : r.state = .DONE ∨ r.state = .ABORTED
        · dsimp only
          rw [if_pos hterm2]
          simpa [state_writes] using hinv
        · have hterm : is_terminal r.state = false :=
            (is_terminal_false_iff r.state).mpr hterm2
          dsimp only
          rw [if_neg hterm2]
          obtain ⟨hst, htr⟩ := hflow _ _ _ _
            (run_phases_ok env a store r [] r store []
              (core_init_existing a store r hget) hterm)
          rw [htr, List.append_nil]
          exact TraceInv_congr eid store _ ws hst hinv
  · rw [execute_gates_fail cfg store env a hg]
    simpa [state_writes] using hinv

lemma C4_aux (cfg : ExecutionConfig) (eid : String) :
    ∀ (calls : List (CallEnv × CallArgs)) (store : List BTC15ExecutionRecord)
      (tr : List Ev), TraceInv eid store (state_writes tr eid) →
      TraceInv eid (run_calls cfg (store, tr) calls).1
        (state_writes (run_calls cfg (store, tr) calls).2 eid) := by
  intro calls
  induction calls with
  | nil => intro store tr hinv; exact hinv
  | cons c rest ih =>
    intro store tr hinv
    unfold run_calls
    have hstep := C4_step cfg store c.1 c.2 eid (state_writes tr eid) hinv
    have happ : state_writes (tr ++ (execute_bracket cfg store c.1 c.2).trace)
        eid = state_writes tr eid ++
          state_writes (execute_bracket cfg store c.1 c.2).trace eid :=
      state_writes_append _ _ _
    exact ih _ _ (by rw [happ]; exact hstep)

lemma TraceInv_dag (eid : String) (store : List BTC15ExecutionRecord)
    (ws : List ExecState) (h : TraceInv eid store ws) :
    dag_trace_ok ws = true ∧ terminal_only_last ws = true := by
  rcases h with ⟨_, hws⟩ | ⟨r, _, hne, hhead, hchain, _, htol⟩
  · subst hws
    exact ⟨rfl, rfl⟩
  · obtain ⟨tail, htail⟩ := List.head?_eq_some_iff.mp hhead
    subst htail
    refine ⟨?_, htol⟩
    unfold dag_trace_ok dedup_consec
    have hch : chain_stutter .PLANNED tail = true := by
      have := hchain
      unfold chain_stutter at this
      simpa [step_eq] using this
    rw [chain_stutter_dedup] at hch
    simp [hch]

/-- C4: over any sequence of `execute_bracket` calls from an empty store,
the sequence of states written for any execution id is (after collapsing
consecutive repeated writes of an unchanged state) a prefix of a path
through the DAG PLANNED → LEG_A_PLACED → LEG_A_FILLED → LEG_B_PLACED →
HEDGED_FILLED → DONE with ABORTED reachable from every non-terminal state,
and a terminal state (DONE or ABORTED) is only ever the last write: no
call writes anything for a record that reached DONE or ABORTED. -/
theorem C4_state_writes_follow_dag (cfg : ExecutionConfig)
    (calls : List (CallEnv × CallArgs)) (eid : String) :
    dag_trace_ok (state_writes (run_calls cfg ([], []) calls).2 eid) = true ∧
    terminal_only_last
      (state_writes (run_calls cfg ([], []) calls).2 eid) = true :=
  TraceInv_dag eid _ _ (C4_aux cfg eid calls [] [] (Or.inl ⟨rfl, rfl⟩))

/- ===================== Claim C3 ===================== -/

/-- No leg-A placement event occurs in the trace. -/
def no_place_a (tr : List Ev) : Bool := tr.all (fun e => !(is_place_a e))

/-- No leg-B placement event occurs in the trace. -/
def no_place_b (tr : List Ev) : Bool := tr.all (fun e => !(is_place_b e))

/-- Every leg-A confirmation for `eid` in the trace uses external id `s`. -/
def confirmA_uses (tr : List Ev) (eid s : String) : Bool :=
  tr.all (fun e =>
    match e with
    | .confirmA e2 x => !(e2 == eid) || (x == s)
    | _ => true)

/-- Every leg-B confirmation for `eid` in the trace uses external id `s`. -/
def confirmB_uses (tr : List Ev) (eid s : String) : Bool :=
  tr.all (fun e =>
    match e with
    | .confirmB e2 x => !(e2 == eid) || (x == s)
    | _ => true)

lemma andThen_cont (r : BTC15ExecutionRecord)
    (st : List BTC15ExecutionRecord) (tr : List Ev)
    (k : BTC15ExecutionRecord → List BTC15ExecutionRecord → List Ev →
      ExecFlow) : (ExecFlow.cont r st tr).andThen k = k r st tr := rfl

lemma andThen_ret (s : Bool) (st : List BTC15ExecutionRecord) (tr : List Ev)
    (k : BTC15ExecutionRecord → List BTC15ExecutionRecord → List Ev →
      ExecFlow) : (ExecFlow.ret s st tr).andThen k = .ret s st tr := rfl

lemma leg_a_fresh_skip (env : CallEnv) (a : CallArgs)
    (r : BTC15ExecutionRecord) (store : List BTC15ExecutionRecord)
    (tr : List Ev) (h : ¬ r.state = .PLANNED) :
    leg_a_fresh env a r store tr = .cont r store tr := by
  unfold leg_a_fresh; rw [if_neg h]

lemma leg_a_resume_skip (env : CallEnv) (a : CallArgs)
    (r : BTC15ExecutionRecord) (store : List BTC15ExecutionRecord)
    (tr : List Ev) (h : ¬ r.state = .LEG_A_PLACED) :
    leg_a_resume env a r store tr = .cont r store tr := by
  unfold leg_a_resume; rw [if_neg h]

lemma leg_b_fresh_skip (env : CallEnv) (a : CallArgs)
    (r : BTC15ExecutionRecord) (store : List BTC15ExecutionRecord)
    (tr : List Ev) (h : ¬ r.state = .LEG_A_FILLED) :
    leg_b_fresh env a r store tr = .cont r store tr := by
  unfold leg_b_fresh; rw [if_neg h]

lemma leg_b_resume_skip (env : CallEnv) (a : CallArgs)
    (r : BTC15ExecutionRecord) (store : List BTC15ExecutionRecord)
    (tr : List Ev) (h : ¬ r.state = .LEG_B_PLACED) :
    leg_b_resume env a r store tr = .cont r store tr := by
  unfold leg_b_resume; rw [if_neg h]

lemma leg_a_resume_run (env : CallEnv) (a : CallArgs)
    (r : BTC15ExecutionRecord) (store : List BTC15ExecutionRecord)
    (tr : List Ev) (h : r.state = .LEG_A_PLACED) :
    leg_a_resume env a r store tr =
      (if env.resume_confirm_a then
        ExecFlow.cont { r with state := .LEG_A_FILLED }
          (storeUpsert store { r with state := .LEG_A_FILLED })
          (tr ++ [Ev.confirmA a.execution_id (stored_ext_a r)] ++
            [Ev.write a.execution_id .LEG_A_FILLED])
      else
        ExecFlow.ret false
          (storeUpsert store { r with state := .ABORTED })
          (tr ++ [Ev.confirmA a.execution_id (stored_ext_a r)] ++
            [Ev.write a.execution_id .ABORTED])) := by
  unfold leg_a_resume; rw [if_pos h]

lemma leg_b_resume_run (env : CallEnv) (a : CallArgs)
    (r : BTC15ExecutionRecord) (store : List BTC15ExecutionRecord)
    (tr : List Ev) (h : r.state = .LEG_B_PLACED) :
    leg_b_resume env a r store tr =
      (if env.resume_confirm_b then
        ExecFlow.cont { r with state := .HEDGED_FILLED }
          (storeUpsert store { r with state := .HEDGED_FILLED })
          (tr ++ [Ev.confirmB a.execution_id (stored_ext_b r)] ++
            [Ev.write a.execution_id .HEDGED_FILLED])
      else
        ExecFlow.ret false
          (storeUpsert store { r with state := .ABORTED })
          (tr ++ [Ev.confirmB a.execution_id (stored_ext_b r)] ++
            [Ev.write a.execution_id .ABORTED])) := by
  unfold leg_b_resume; rw [if_pos h]

lemma leg_b_fresh_timeout (env : CallEnv) (a : CallArgs)
    (r : BTC15ExecutionRecord) (store : List BTC15ExecutionRecord)
    (tr : List Ev) (h : r.state = .LEG_A_FILLED)
    (hut : env.unhedged_timeout = true) :
    leg_b_fresh env a r store tr =
      .ret false (storeUpsert store { r with state := .ABORTED })
        (tr ++ [Ev.write a.execution_id .ABORTED]) := by
  unfold leg_b_fresh; rw [if_pos h, hut]; rfl

lemma leg_b_fresh_run (env : CallEnv) (a : CallArgs)
    (r : BTC15ExecutionRecord) (store : List BTC15ExecutionRecord)
    (tr : List Ev) (h : r.state = .LEG_A_FILLED)
    (hut : env.unhedged_timeout = false) :
    leg_b_fresh env a r store tr =
      (let r2 := match env.leg_b.id_kind with
        | .job =>
          { r with
            state := .LEG_B_PLACED
            leg_b_job_id := some env.leg_b.ext_id }
        | .order =>
          { r with
            state := .LEG_B_PLACED
            leg_b_order_id := some env.leg_b.ext_id }
      let store3 := storeUpsert (storeUpsert
        (storeUpsert store { r with state := .LEG_B_PLACED }) r2) r2
      let tr3 := tr ++ [Ev.write a.execution_id .LEG_B_PLACED] ++
        [Ev.placeB a.execution_id env.leg_b.ext_id] ++
        [Ev.write a.execution_id .LEG_B_PLACED] ++
        [Ev.confirmB a.execution_id env.leg_b.ext_id] ++
        [Ev.write a.execution_id .LEG_B_PLACED]
      if env.leg_b.confirm_filled then
        ExecFlow.cont { r2 with state := .HEDGED_FILLED }
          (storeUpsert store3 { r2 with state := .HEDGED_FILLED })
          (tr3 ++ [Ev.write a.execution_id .HEDGED_FILLED])
      else
        ExecFlow.ret false
          (storeUpsert store3 { r2 with state := .ABORTED })
          (tr3 ++ [Ev.write a.execution_id .ABORTED])) := by
  unfold leg_b_fresh
  rw [if_pos h, hut]
  cases env.leg_b.id_kind <;> rfl

lemma finish_block_done (a : CallArgs) (r : BTC15ExecutionRecord)
    (store : List BTC15ExecutionRecord) (tr : List Ev)
    (h : r.state = .HEDGED_FILLED) :
    finish_block a r store tr =
      .ret true (storeUpsert store { r with state := .DONE })
        (tr ++ [Ev.write a.execution_id .DONE]) := by
  unfold finish_block; rw [if_pos h]

lemma finish_block_other (a : CallArgs) (r : BTC15ExecutionRecord)
    (store : List BTC15ExecutionRecord) (tr : List Ev)
    (h : ¬ r.state = .HEDGED_FILLED) :
    finish_block a r store tr = .ret false store tr := by
  unfold finish_block; rw [if_neg h]

set_option maxHeartbeats 1000000 in
lemma run_phases_legA_facts (env : CallEnv) (a : CallArgs)
    (r : BTC15ExecutionRecord) (store : List BTC15ExecutionRecord)
    (hA : r.state = .LEG_A_PLACED) :
    no_place_a (run_phases env a r store []).toResult.trace = true ∧
    confirmA_uses (run_phases env a r store []).toResult.trace
      a.execution_id (stored_ext_a r) = true ∧
    ((state_writes (run_phases env a r store []).toResult.trace
        a.execution_id).head? = some .LEG_A_FILLED ∨
      (state_writes (run_phases env a r store []).toResult.trace
        a.execution_id).head? = some .ABORTED) := by
  have hnp : ¬ r.state = .PLANNED := by rw [hA]; simp
  cases hra : env.resume_confirm_a with
  | false =>
    unfold run_phases
    rw [leg_a_fresh_skip env a r store [] hnp, andThen_cont,
      leg_a_resume_run env a r store [] hA, hra,
      if_neg (show ¬(false = true) by decide),
      andThen_ret, andThen_ret, andThen_ret]
    simp [ExecFlow.toResult, no_place_a, is_place_a, confirmA_uses,
      state_writes]
  | true =>
    unfold run_phases
    rw [leg_a_fresh_skip env a r store [] hnp, andThen_cont,
      leg_a_resume_run env a r store [] hA, hra,
      if_pos (show (true = true) from rfl), andThen_cont]
    cases hut : env.unhedged_timeout with
    | true =>
      rw [leg_b_fresh_timeout env a _ _ _ rfl hut, andThen_ret, andThen_ret]
      simp [ExecFlow.toResult, no_place_a, is_place_a, confirmA_uses,
        state_writes]
    | false =>
      rw [leg_b_fresh_run env a _ _ _ rfl hut]
      cases hkb : env.leg_b.id_kind <;> cases hcb : env.leg_b.confirm_filled <;>
      · simp only [hkb, hcb]
        try dsimp only
        first
        | (rw [if_pos (by trivial), andThen_cont,
            leg_b_resume_skip _ _ _ _ _ (by simp), andThen_cont,
            finish_block_done _ _ _ _ rfl]
           simp [ExecFlow.toResult, no_place_a, is_place_a, confirmA_uses,
             state_writes])
        | (rw [if_neg (show ¬(false = true) by decide), andThen_ret,
            andThen_ret]
           simp [ExecFlow.toResult, no_place_a, is_place_a, confirmA_uses,
             state_writes])
        | (rw [if_neg (show ¬False from fun hf => hf), andThen_ret,
            andThen_ret]
           simp [ExecFlow.toResult, no_place_a, is_place_a, confirmA_uses,
             state_writes])

lemma run_phases_legB_facts (env : CallEnv) (a : CallArgs)
    (r : BTC15ExecutionRecord) (store : List BTC15ExecutionRecord)
    (hB : r.state = .LEG_B_PLACED) :
    no_place_a (run_phases env a r store []).toResult.trace = true ∧
    no_place_b (run_phases env a r store []).toResult.trace = true ∧
    confirmB_uses (run_phases env a r store []).toResult.trace
      a.execution_id (stored_ext_b r) = true ∧
    ((state_writes (run_phases env a r store []).toResult.trace
        a.execution_id).head? = some .HEDGED_FILLED ∨
      (state_writes (run_phases env a r store []).toResult.trace
        a.execution_id).head? = some .ABORTED) := by
  have h1 : ¬ r.state = .PLANNED := by rw [hB]; simp
  have h2 : ¬ r.state = .LEG_A_PLACED := by rw [hB]; simp
  have h3 : ¬ r.state = .LEG_A_FILLED := by rw [hB]; simp
  cases hrb : env.resume_confirm_b with
  | false =>
    unfold run_phases
    rw [leg_a_fresh_skip env a r store [] h1, andThen_cont,
      leg_a_resume_skip env a r store [] h2, andThen_cont,
      leg_b_fresh_skip env a r store [] h3, andThen_cont,
      leg_b_resume_run env a r store [] hB, hrb,
      if_neg (show ¬(false = true) by decide), andThen_ret]
    simp [ExecFlow.toResult, no_place_a, no_place_b, is_place_a, is_place_b,
      confirmB_uses, state_writes]
  | true =>
    unfold run_phases
    rw [leg_a_fresh_skip env a r store [] h1, andThen_cont,
      leg_a_resume_skip env a r store [] h2, andThen_cont,
      leg_b_fresh_skip env a r store [] h3, andThen_cont,
      leg_b_resume_run env a r store [] hB, hrb,
      if_pos (show (true = true) from rfl), andThen_cont,
      finish_block_done a _ _ _ rfl]
    simp [ExecFlow.toResult, no_place_a, no_place_b, is_place_a, is_place_b,
      confirmB_uses, state_writes]

/-- C3: a call resuming a record persisted in LEG_A_PLACED or
LEG_B_PLACED never places the already-placed leg again: it only
re-confirms the stored external id (order id preferred over job id) and
drives the record to the leg's filled state or to ABORTED (or does nothing
at all when a risk gate rejects the call). -/
theorem C3_resume_never_replaces (cfg : ExecutionConfig)
    (store : List BTC15ExecutionRecord) (env : CallEnv) (a : CallArgs)
    (r : BTC15ExecutionRecord)
    (hget : storeGet store a.execution_id = some r)
    (hstate : r.state = .LEG_A_PLACED ∨ r.state = .LEG_B_PLACED) :
    (r.state = .LEG_A_PLACED →
      no_place_a (execute_bracket cfg store env a).trace = true ∧
      confirmA_uses (execute_bracket cfg store env a).trace
        a.execution_id (stored_ext_a r) = true ∧
      ((state_writes (execute_bracket cfg store env a).trace
          a.execution_id).head? = none ∨
        (state_writes (execute_bracket cfg store env a).trace
          a.execution_id).head? = some .LEG_A_FILLED ∨
        (state_writes (execute_bracket cfg store env a).trace
          a.execution_id).head? = some .ABORTED)) ∧
    (r.state = .LEG_B_PLACED →
      no_place_a (execute_bracket cfg store env a).trace = true ∧
      no_place_b (execute_bracket cfg store env a).trace = true ∧
      confirmB_uses (execute_bracket cfg store env a).trace
        a.execution_id (stored_ext_b r) = true ∧
      ((state_writes (execute_bracket cfg store env a).trace
          a.execution_id).head? = none ∨
        (state_writes (execute_bracket cfg store env a).trace
          a.execution_id).head? = some .HEDGED_FILLED ∨
        (state_writes (execute_bracket cfg store env a).trace
          a.execution_id).head? = some .ABORTED)) := by
  by_cases hg : risk_gates_pass cfg store a
  · have hterm2 : ¬(r.state = .DONE ∨ r.state = .ABORTED) := by
      rcases hstate with h | h <;> rw [h] <;> decide
    rw [execute_gates_pass cfg store env a hg, hget]
    dsimp only
    rw [if_neg hterm2]
    constructor
    · intro hA
      obtain ⟨f1, f2, f3⟩ := run_phases_legA_facts env a r store hA
      exact ⟨f1, f2, Or.inr f3⟩
    · intro hB
      obtain ⟨f1, f2, f3, f4⟩ := run_phases_legB_facts env a r store hB
      exact ⟨f1, f2, f3, Or.inr f4⟩
  · rw [execute_gates_fail cfg store env a hg]
    constructor
    · intro _
      exact ⟨rfl, rfl, Or.inl rfl⟩
    · intro _
      exact ⟨rfl, rfl, rfl, Or.inl rfl⟩

def w3_rec : BTC15ExecutionRecord :=
  { execution_id := "e"
    slug := "btc-updown-15m-900"
    up_token_id := "u"
    down_token_id := "d"
    target_shares := 10
    state := .LEG_A_PLACED
    created_day := "2026-10-12"
    leg_a_job_id := none
    leg_b_job_id := none
    leg_a_order_id := some "oidA"
    leg_b_order_id := none
    estimated_total_usdc := 10 }

theorem C3_witness :
    (storeGet [w3_rec] "e" = some w3_rec ∧
      (w3_rec.state = .LEG_A_PLACED ∨ w3_rec.state = .LEG_B_PLACED)) ∧
    ((w3_rec.state = .LEG_A_PLACED →
      no_place_a (execute_bracket w1_cfg [w3_rec] cex1_env cex1_args).trace
        = true ∧
      confirmA_uses (execute_bracket w1_cfg [w3_rec] cex1_env cex1_args).trace
        cex1_args.execution_id (stored_ext_a w3_rec) = true ∧
      ((state_writes (execute_bracket w1_cfg [w3_rec] cex1_env
          cex1_args).trace cex1_args.execution_id).head? = none ∨
        (state_writes (execute_bracket w1_cfg [w3_rec] cex1_env
          cex1_args).trace cex1_args.execution_id).head? =
            some .LEG_A_FILLED ∨
        (state_writes (execute_bracket w1_cfg [w3_rec] cex1_env
          cex1_args).trace cex1_args.execution_id).head? =
            some .ABORTED)) ∧
    (w3_rec.state = .LEG_B_PLACED →
      no_place_a (execute_bracket w1_cfg [w3_rec] cex1_env cex1_args).trace
        = true ∧
      no_place_b (execute_bracket w1_cfg [w3_rec] cex1_env cex1_args).trace
        = true ∧
      confirmB_uses (execute_bracket w1_cfg [w3_rec] cex1_env cex1_args).trace
        cex1_args.execution_id (stored_ext_b w3_rec) = true ∧
      ((state_writes (execute_bracket w1_cfg [w3_rec] cex1_env
          cex1_args).trace cex1_args.execution_id).head? = none ∨
        (state_writes (execute_bracket w1_cfg [w3_rec] cex1_env
          cex1_args).trace cex1_args.execution_id).head? =
            some .HEDGED_FILLED ∨
        (state_writes (execute_bracket w1_cfg [w3_rec] cex1_env
          cex1_args).trace cex1_args.execution_id).head? =
            some .ABORTED))) :=
  ⟨⟨by with_unfolding_all decide, Or.inl (by with_unfolding_all decide)⟩,
    C3_resume_never_replaces w1_cfg [w3_rec] cex1_env cex1_args w3_rec
      (by with_unfolding_all decide) (Or.inl (by with_unfolding_all decide))⟩

def w5_cfg : ExecutionConfig :=
  { max_open_brackets := 2
    max_estimated_usdc_per_bracket := 0
    daily_estimated_usdc_cap := 20
    trading_enabled := false
    dry_run := true }

theorem C5_witness :
    (0 < w5_cfg.daily_estimated_usdc_cap ∧
      ∀ c ∈ [(cex1_env, cex1_args)],
        0 ≤ (Prod.snd c).estimated_total_usdc) ∧
    sum_estimated_usdc_for_day
        (run_calls w5_cfg ([], []) [(cex1_env, cex1_args)]).1 "2026-10-12" ≤
      w5_cfg.daily_estimated_usdc_cap :=
  ⟨⟨by with_unfolding_all decide,
      by
        intro c hc
        simp only [List.mem_singleton] at hc
        subst hc
        with_unfolding_all decide⟩,
    C5_daily_cap_conserved w5_cfg [(cex1_env, cex1_args)]
      (by with_unfolding_all decide)
      (by
        intro c hc
        simp only [List.mem_singleton] at hc
        subst hc
        with_unfolding_all decide)
      "2026-10-12"⟩
